import Mathlib

/-!
Shallow embedding of the wagering core of the sports-app backend
(src/backend/routes/bet.js and src/backend/routes/admin.js).

Conventions used throughout:
* SQL tables become Lean lists of records; each single SQL statement is one
  Lean function on the state (a statement is atomic in Postgres, the gaps
  between statements are not).
* JS numbers occurring in database columns are modelled as exact rationals
  (ℚ); the claims settled here do not depend on binary rounding.  Where the
  special values NaN and Infinity matter (they can arrive in a JSON request
  body), a dedicated type `JsNum` with explicit NaN/±Infinity is used.
* A NULLable column is an `Option`; `COALESCE(c, 0)` is `c.getD 0`.
* A nullable numeric read back through `Number(x)` where x may be a
  non-numeric string is an `Option ℚ` with `none` for the NaN case.
-/

/-- Status column of the `bets` table: 'pending' | 'won' | 'lost'. -/
inductive BetStatus
  | pending
  | won
  | lost
deriving DecidableEq

/-- One row of the `bets` table (columns used by the core). -/
structure Bet where
  id : Nat
  user_id : Nat
  game_name : String
  game_type : String
  bet_amount : ℚ
  odds : ℚ
  selected_team : String
  status : BetStatus
deriving DecidableEq

/-- One row of the `users` table (columns used by the core); `coins` is a
NULLable numeric column. -/
structure User where
  id : Nat
  coins : Option ℚ
deriving DecidableEq

/-- One row of the `games` table. `external_id` is NULLable (rows created by
POST /admin/add-game have no external id); `id` is the serial primary key. -/
structure Game where
  id : Nat
  external_id : Option String
  game_name : String
  game_type : String
  odds : ℚ
  start_time : Option String
  team1_name : String
  team2_name : String
  team1_odds : ℚ
  team2_odds : ℚ
  draw_odds : Option ℚ
  has_draw : Bool
deriving DecidableEq

/-- The ledger: `users` and `bets` tables. -/
structure Ledger where
  users : List User
  bets : List Bet
deriving DecidableEq

/-- `SELECT coins FROM users WHERE id = $1` (first matching row). -/
def getUser (st : Ledger) (uid : Nat) : Option User :=
  st.users.find? (fun u => u.id = uid)

/-- `UPDATE users SET coins = COALESCE(coins,0) ⊕ amt WHERE id = uid`:
every matching row gets `f` applied to its coalesced balance. -/
def updateUserCoins (uid : Nat) (f : ℚ → ℚ) (st : Ledger) : Ledger :=
  { st with users := st.users.map (fun u =>
      if u.id = uid then { u with coins := some (f (u.coins.getD 0)) } else u) }

/-- `UPDATE users SET coins = COALESCE(coins,0) + $1 WHERE id = $2`
(admin.js:110, admin.js:144). -/
def creditUser (uid : Nat) (amt : ℚ) (st : Ledger) : Ledger :=
  updateUserCoins uid (fun c => c + amt) st

/-- `UPDATE users SET coins = COALESCE(coins,0) - $1 WHERE id = $2`
(bet.js:213). -/
def debitUser (uid : Nat) (amt : ℚ) (st : Ledger) : Ledger :=
  updateUserCoins uid (fun c => c - amt) st

/-- Serial id assigned by the `bets` table to a fresh row. -/
def nextBetId (st : Ledger) : Nat :=
  (st.bets.map (fun b => b.id)).foldl max 0 + 1

/-- `INSERT INTO bets (...) VALUES (...,'pending',...) RETURNING *`
(bet.js:216-223). -/
def insertBet (uid : Nat) (gname gtype : String) (amount odds : ℚ)
    (side : String) (st : Ledger) : Ledger × Bet :=
  let b : Bet :=
    { id := nextBetId st, user_id := uid, game_name := gname,
      game_type := gtype, bet_amount := amount, odds := odds,
      selected_team := side, status := BetStatus.pending }
  ({ st with bets := st.bets ++ [b] }, b)

/-- Odds resolution of POST /api/bet/place, step 2 (bet.js:189-195).
`none` models the `chosenOdds = null` case.  Note: pg returns numerics as
strings, so a stored draw price of 0 is a truthy string here; a zero price
is rejected only by the subsequent falsiness check on `chosenOdds`. -/
def chooseOdds (g : Game) (selectedTeam : String) : Option ℚ :=
  if selectedTeam = g.team1_name then some g.team1_odds
  else if selectedTeam = g.team2_name then some g.team2_odds
  else if selectedTeam = "Draw" then
    (if g.has_draw ∧ g.draw_odds.isSome then g.draw_odds else none)
  else none

/-- POST /api/bet/place (bet.js:172-232) with all finite numbers; the
request amount is a rational.  Validation failures return the error string
of the JSON response; no state is mutated on any failure path.  The
successful path performs the debit (one UPDATE) and then the insert (one
INSERT); the intermediate state between the two statements is exposed by
the composition in the success value. -/
def place (games : List Game) (uid gameId : Nat) (betAmount : ℚ)
    (selectedTeam : String) (st : Ledger) : Except String (Ledger × Bet) :=
  if uid = 0 ∨ gameId = 0 ∨ selectedTeam = "" ∨ betAmount ≤ 0 then
    Except.error "Invalid userId, gameId, selectedTeam or betAmount"
  else
    match games.find? (fun g => g.id = gameId) with
    | none => Except.error "Game not found"
    | some game =>
      match chooseOdds game selectedTeam with
      | none => Except.error "Invalid selected team / odds not available"
      | some o =>
        if o = 0 then Except.error "Invalid selected team / odds not available"
        else
          match getUser st uid with
          | none => Except.error "User not found"
          | some u =>
            if u.coins.getD 0 < betAmount then Except.error "Insufficient balance"
            else
              Except.ok (insertBet uid game.game_name game.game_type betAmount o
                selectedTeam (debitUser uid betAmount st))

/-- `UPDATE bets SET status = $1 WHERE id = $2` (admin.js:105, admin.js:150). -/
def setBetStatus (betId : Nat) (ns : BetStatus) (st : Ledger) : Ledger :=
  { st with bets := st.bets.map (fun b =>
      if b.id = betId then { b with status := ns } else b) }

/-- New status a settled bet receives in POST /admin/auto-resolve
(admin.js:102-103). -/
def resolvedStatus (winning : String) (b : Bet) : BetStatus :=
  if b.selected_team = winning then BetStatus.won else BetStatus.lost

/-- Body of the per-bet loop of POST /admin/auto-resolve (admin.js:101-115):
one UPDATE on `bets`, then — only for a winner — one UPDATE on `users`.
The two statements are issued separately, with no surrounding transaction. -/
def applyBetResolution (winning : String) (st : Ledger) (b : Bet) : Ledger :=
  let st1 := setBetStatus b.id (resolvedStatus winning b) st
  if b.selected_team = winning then
    creditUser b.user_id (b.bet_amount * b.odds) st1
  else st1

/-- `SELECT * FROM bets WHERE status = 'pending' AND game_name = $1`
(admin.js:96-99). -/
def pendingBetsFor (gname : String) (st : Ledger) : List Bet :=
  st.bets.filter (fun b => b.status = BetStatus.pending ∧ b.game_name = gname)

/-- Winner determination of POST /admin/auto-resolve (admin.js:88-93). -/
def winnerOf (g : Game) (s1 s2 : ℚ) : String :=
  if s1 > s2 then g.team1_name
  else if s2 > s1 then g.team2_name
  else "Draw"

/-- Settlement of all pending bets of one game against reported scores
(admin.js:96-115): the pending bets are fetched once, then resolved one by
one. -/
def resolveGame (g : Game) (s1 s2 : ℚ) (st : Ledger) : Ledger :=
  (pendingBetsFor g.game_name st).foldl
    (applyBetResolution (winnerOf g s1 s2)) st

/-- One score entry of a completed feed event; `score = none` models a
missing or non-numeric score string (`Number(s.score)` is NaN). -/
structure ScoreEntry where
  name : String
  score : Option ℚ
deriving DecidableEq

/-- One event of the scores feed consumed by POST /admin/auto-resolve. -/
structure ScoreEvent where
  id : String
  completed : Bool
  scores : List ScoreEntry
deriving DecidableEq

/-- Per-event body of POST /admin/auto-resolve (admin.js:68-116): only
completed events are processed; the game is looked up by external id; the
two sides' scores are matched by team name and must be numeric; then the
pending bets of the game are settled. -/
def resolveEvent (games : List Game) (ev : ScoreEvent) (st : Ledger) : Ledger :=
  if ev.completed = false then st
  else
    match games.find? (fun g => g.external_id = some ("odds_" ++ ev.id)) with
    | none => st
    | some game =>
      match ev.scores.find? (fun s => s.name = game.team1_name),
            ev.scores.find? (fun s => s.name = game.team2_name) with
      | some s1e, some s2e =>
        match s1e.score, s2e.score with
        | some s1, some s2 => resolveGame game s1 s2 st
        | _, _ => st
      | _, _ => st

/-- POST /admin/resolve-bet (admin.js:128-157): fetches the bet by id with
NO check of its current status, credits `bet_amount * odds` first when the
requested result is 'won', then unconditionally overwrites the status. -/
def resolveBet (betId : Nat) (result : String) (st : Ledger) :
    Except String Ledger :=
  if betId = 0 ∨ (result ≠ "won" ∧ result ≠ "lost") then
    Except.error "result must be won or lost"
  else
    match st.bets.find? (fun b => b.id = betId) with
    | none => Except.error "Bet not found"
    | some bet =>
      let st1 :=
        if result = "won" then creditUser bet.user_id (bet.bet_amount * bet.odds) st
        else st
      Except.ok (setBetStatus betId
        (if result = "won" then BetStatus.won else BetStatus.lost) st1)

/-- POST /admin/add-coins (admin.js:18-46): only a falsy userId or a NaN
amount is rejected; any other rational amount — negative or fractional —
is added unconditionally via `SET coins = COALESCE(coins, 0) + $1`. -/
def addCoins (userId : Nat) (inc : ℚ) (users : List User) :
    Except String (List User) :=
  if userId = 0 then Except.error "Invalid userId or amount"
  else if users.all (fun u => u.id ≠ userId) then Except.error "User not found"
  else
    Except.ok (users.map (fun u =>
      if u.id = userId then { u with coins := some (u.coins.getD 0 + inc) } else u))

/-- A JS number as it can arrive in a JSON request body: NaN, ±Infinity or
a finite value (modelled exactly). -/
inductive JsNum
  | nan
  | posInf
  | negInf
  | fin (q : ℚ)
deriving DecidableEq

/-- `Number.isNaN`. -/
def JsNum.isNaNb : JsNum → Bool
  | JsNum.nan => true
  | _ => false

/-- The JS comparison `x <= 0` (false on NaN). -/
def JsNum.leZero : JsNum → Bool
  | JsNum.nan => false
  | JsNum.posInf => false
  | JsNum.negInf => true
  | JsNum.fin q => decide (q ≤ 0)

/-- The JS comparison `a < b` (false whenever either side is NaN). -/
def jsLt : JsNum → JsNum → Bool
  | JsNum.nan, _ => false
  | _, JsNum.nan => false
  | JsNum.posInf, _ => false
  | JsNum.negInf, JsNum.negInf => false
  | JsNum.negInf, _ => true
  | JsNum.fin _, JsNum.negInf => false
  | JsNum.fin _, JsNum.posInf => true
  | JsNum.fin a, JsNum.fin b => decide (a < b)

/-- Finite part of a JsNum (only evaluated on paths where the value is
known to be finite). -/
def JsNum.toQ : JsNum → ℚ
  | JsNum.fin q => q
  | _ => 0

/-- POST /api/bet/place (bet.js:172-232) with the request `betAmount`
carried at full JS fidelity (NaN and ±Infinity representable).  The
validation chain is the source's: `Number.isNaN(amount) || amount <= 0`
first, then the game lookup, the odds resolution with its falsiness check
`!chosenOdds || Number.isNaN(chosenOdds)`, the user lookup, and the balance
comparison `coins < amount`. -/
def placeJs (games : List Game) (uid gameId : Nat) (betAmount : JsNum)
    (selectedTeam : String) (st : Ledger) : Except String (Ledger × Bet) :=
  if uid = 0 ∨ gameId = 0 ∨ selectedTeam = "" ∨ betAmount.isNaNb ∨ betAmount.leZero then
    Except.error "Invalid userId, gameId, selectedTeam or betAmount"
  else
    match games.find? (fun g => g.id = gameId) with
    | none => Except.error "Game not found"
    | some game =>
      match chooseOdds game selectedTeam with
      | none => Except.error "Invalid selected team / odds not available"
      | some o =>
        if o = 0 then Except.error "Invalid selected team / odds not available"
        else
          match getUser st uid with
          | none => Except.error "User not found"
          | some u =>
            if jsLt (JsNum.fin (u.coins.getD 0)) betAmount then
              Except.error "Insufficient balance"
            else
              Except.ok (insertBet uid game.game_name game.game_type
                betAmount.toQ o selectedTeam (debitUser uid betAmount.toQ st))

/-- One quoted outcome of a bookmaker market in the odds feed. -/
structure Quote where
  name : String
  price : ℚ
deriving DecidableEq

/-- One market of a bookmaker in the odds feed ("h2h" or other). -/
structure BookmakerMarket where
  key : String
  outcomes : List Quote
deriving DecidableEq

/-- One bookmaker entry of a feed event. -/
structure Bookmaker where
  markets : List BookmakerMarket
deriving DecidableEq

/-- One raw event of the odds feed snapshot. -/
structure RawEvent where
  id : String
  home_team : String
  away_team : String
  commence_time : Option String
  bookmakers : List Bookmaker
deriving DecidableEq

/-- Accumulation of one quoted price into a best-so-far value
(`best == null ? price : Math.max(best, price)`, bet.js:61-64). -/
def updBest (acc : Option ℚ) (p : ℚ) : Option ℚ :=
  match acc with
  | none => some p
  | some b => some (max b p)

/-- The three best-so-far prices tracked per event (bet.js:52-54). -/
structure BestOdds where
  bestHome : Option ℚ
  bestDraw : Option ℚ
  bestAway : Option ℚ
deriving DecidableEq

/-- `name.toLowerCase()` of bet.js:63, computed on the character list
(identical to `String.toLower`, which maps `Char.toLower` over the
string, but reducible). -/
def lowerName (s : String) : String := ⟨s.data.map Char.toLower⟩

/-- Per-quote step of the best-odds scan (bet.js:60-65): a quote is matched
against the home name first, then the away name, then (case-insensitively)
"draw". -/
def scanQuote (home away : String) (acc : BestOdds) (o : Quote) : BestOdds :=
  if o.name = home then { acc with bestHome := updBest acc.bestHome o.price }
  else if o.name = away then { acc with bestAway := updBest acc.bestAway o.price }
  else if lowerName o.name = "draw" then
    { acc with bestDraw := updBest acc.bestDraw o.price }
  else acc

/-- Per-bookmaker step of the best-odds scan (bet.js:56-66): the FIRST
market with key "h2h" is selected and its outcomes are scanned. -/
def scanBookmaker (home away : String) (acc : BestOdds) (bm : Bookmaker) :
    BestOdds :=
  match bm.markets.find? (fun m => m.key = "h2h") with
  | none => acc
  | some m => m.outcomes.foldl (scanQuote home away) acc

/-- Best available odds of one event across its bookmakers (bet.js:51-66). -/
def bestOddsOf (ev : RawEvent) : BestOdds :=
  ev.bookmakers.foldl (scanBookmaker ev.home_team ev.away_team)
    { bestHome := none, bestDraw := none, bestAway := none }

/-- JS truthiness of a nullable price: null and 0 are falsy. -/
def priceTruthy (x : Option ℚ) : Bool :=
  match x with
  | none => false
  | some q => decide (q ≠ 0)

/-- `ev.commence_time || null` (bet.js:79): an empty string is falsy. -/
def commenceOf (ev : RawEvent) : Option String :=
  match ev.commence_time with
  | some s => if s = "" then none else some s
  | none => none

/-- The games row upserted for a surviving event (bet.js:74-113).  The `id`
field is the serial column: it is a placeholder here and is assigned (new
row) or preserved (conflicting row) by `upsertGame`. -/
def gameRowOf (ev : RawEvent) (b : BestOdds) : Game :=
  { id := 0
    external_id := some ("odds_" ++ ev.id)
    game_name := ev.home_team ++ " vs " ++ ev.away_team ++ " (EFL Cup)"
    game_type := "soccer"
    odds := b.bestHome.getD 0
    start_time := commenceOf ev
    team1_name := ev.home_team
    team2_name := ev.away_team
    team1_odds := b.bestHome.getD 0
    team2_odds := b.bestAway.getD 0
    draw_odds := b.bestDraw
    has_draw := priceTruthy b.bestDraw }

/-- Serial id the `games` table gives a freshly inserted row. -/
def freshGameId (store : List Game) : Nat :=
  (store.map (fun r => r.id)).foldl max 0 + 1

/-- `INSERT INTO games ... ON CONFLICT (external_id) DO UPDATE SET ...`
(bet.js:81-113): on conflict every non-key column is overwritten and the
serial id is kept; otherwise a new row is appended with a fresh id. -/
def upsertGame (g : Game) (store : List Game) : List Game :=
  if store.any (fun r => r.external_id = g.external_id) then
    store.map (fun r =>
      if r.external_id = g.external_id then { g with id := r.id } else r)
  else store ++ [{ g with id := freshGameId store }]

/-- Per-event outcome of the sync loop (bet.js:47-72): `none` when the
event is skipped because `!bestHome || !bestAway` (best price missing OR
zero), otherwise the external id pushed to `activeExternalIds` together
with the row to upsert. -/
def processEvent (ev : RawEvent) : Option (String × Game) :=
  let b := bestOddsOf ev
  if priceTruthy b.bestHome ∧ priceTruthy b.bestAway then
    some ("odds_" ++ ev.id, gameRowOf ev b)
  else none

/-- Mutable state of the sync loop of `syncEflCupOddsToDB`. -/
structure SyncAcc where
  store : List Game
  activeIds : List String
  upserted : Nat
  skippedNoOdds : Nat
deriving DecidableEq

/-- One iteration of the event loop of `syncEflCupOddsToDB` (bet.js:47-116). -/
def syncStep (acc : SyncAcc) (ev : RawEvent) : SyncAcc :=
  match processEvent ev with
  | none => { acc with skippedNoOdds := acc.skippedNoOdds + 1 }
  | some kg =>
    { acc with
      store := upsertGame kg.2 acc.store
      activeIds := acc.activeIds ++ [kg.1]
      upserted := acc.upserted + 1 }

/-- SQL `external_id LIKE 'odds_%'`: the id starts with the feed's marker
prefix (computable on the underlying character list). -/
def oddsLike (k : String) : Bool :=
  "odds_".data.isPrefixOf k.data

/-- Deletion condition of the prune statement (bet.js:123-131):
`game_type = 'soccer' AND external_id LIKE 'odds_%' AND external_id NOT IN
(active)`.  A NULL external_id never matches LIKE. -/
def pruneCondition (active : List String) (r : Game) : Bool :=
  decide (r.game_type = "soccer") &&
    (match r.external_id with
     | some k => oddsLike k && decide (k ∉ active)
     | none => false)

/-- `syncEflCupOddsToDB` (bet.js:28-138) restricted to its effect on the
`games` table plus the returned counters: the event loop, then — only when
`activeExternalIds` is non-empty — the prune DELETE.  An empty active list
performs no deletion (bet.js:132-135). -/
def syncEflCupOddsToDB (events : List RawEvent) (store : List Game) : SyncAcc :=
  let acc := events.foldl syncStep
    { store := store, activeIds := [], upserted := 0, skippedNoOdds := 0 }
  if acc.activeIds.isEmpty then acc
  else { acc with store := acc.store.filter (fun r => ¬ pruneCondition acc.activeIds r) }

/-- The surviving (externalId, row) pairs of a snapshot. -/
def survivors (events : List RawEvent) : List (String × Game) :=
  events.filterMap processEvent

/-- The external ids collected by the sync loop. -/
def survivorIds (events : List RawEvent) : List String :=
  (survivors events).map (fun kg => kg.1)

/-- A ledger operation raced against others on the same tables: a wager
placement request or the settlement of one completed feed event. -/
inductive LedgerOp
  | placeBet (uid gameId : Nat) (betAmount : ℚ) (selectedTeam : String)
  | settle (ev : ScoreEvent)

/-- Effect of one ledger operation on the ledger; a rejected placement
leaves the state unchanged (no failure path of bet.js:172-210 mutates). -/
def stepOp (games : List Game) (st : Ledger) (op : LedgerOp) : Ledger :=
  match op with
  | LedgerOp.placeBet uid gid amt side =>
    match place games uid gid amt side st with
    | Except.ok p => p.1
    | Except.error _ => st
  | LedgerOp.settle ev => resolveEvent games ev st

/-- A sequence of interleaved placements and settlements. -/
def runOps (games : List Game) (st : Ledger) (ops : List LedgerOp) : Ledger :=
  ops.foldl (stepOp games) st

/-- Balance of an account as read back through `SELECT` + `COALESCE`:
0 for a missing user (spec's balance is only observed for existing users). -/
def balanceOf (st : Ledger) (uid : Nat) : ℚ :=
  ((getUser st uid).map (fun u => u.coins.getD 0)).getD 0

/-- Sum of the stakes of all bets a user ever placed (bets are never
deleted). -/
def stakeSum (uid : Nat) (bets : List Bet) : ℚ :=
  (bets.map (fun b => if b.user_id = uid then b.bet_amount else 0)).sum

/-- Sum of `stake * odds` over a user's bets currently in `won` status. -/
def wonSum (uid : Nat) (bets : List Bet) : ℚ :=
  (bets.map (fun b =>
    if b.user_id = uid ∧ b.status = BetStatus.won then b.bet_amount * b.odds
    else 0)).sum

/-- The credit a settlement pass hands to one user: `stake * odds` over the
pending, name-matching bets whose selected side is the winning label. -/
def creditSum (gname winning : String) (uid : Nat) (st : Ledger) : ℚ :=
  (((pendingBetsFor gname st).filter (fun b =>
      b.user_id = uid ∧ b.selected_team = winning)).map (fun b =>
        b.bet_amount * b.odds)).sum

/-- Error observer for Except results. -/
def isErr {ε α : Type} : Except ε α → Bool
  | Except.error _ => true
  | Except.ok _ => false

/-- Quotes one bookmaker offers for one outcome over its "h2h"-style
markets (used by the spec-side best-price definition). -/
def bmQuotes (target : String → Bool) (bm : Bookmaker) : List ℚ :=
  ((bm.markets.filter (fun m => m.key = "h2h")).map (fun m =>
    (m.outcomes.filter (fun o => target o.name)).map (fun o => o.price))).flatten

/-- Modelled from the spec: the quoted prices for one outcome "across all
bookmakers offering an 'h2h'-style market for that outcome"
(spec §4.2 step 1).  Used only to compare the spec's wording with
`bestOddsOf`. -/
def specQuotes (target : String → Bool) (ev : RawEvent) : List ℚ :=
  (ev.bookmakers.map (bmQuotes target)).flatten

/-- Modelled from the spec: maximum of a list of quotes, absent when there
are none. -/
def specBest (target : String → Bool) (ev : RawEvent) : Option ℚ :=
  (specQuotes target ev).foldl updBest none

/-- A ledger holding one already-won bet (id 1, stake 5 at odds 2, user 7
selected side "A") and its owner with 100 coins. -/
def wonLedger : Ledger :=
  { users := [{ id := 7, coins := some 100 }]
    bets := [{ id := 1, user_id := 7, game_name := "G", game_type := "soccer",
               bet_amount := 5, odds := 2, selected_team := "A",
               status := BetStatus.won }] }

/-- A ledger holding one pending bet (id 1, stake 5 at odds 2, user 7
selected side "A") and its owner with 100 coins. -/
def pendingLedger : Ledger :=
  { users := [{ id := 7, coins := some 100 }]
    bets := [{ id := 1, user_id := 7, game_name := "G", game_type := "soccer",
               bet_amount := 5, odds := 2, selected_team := "A",
               status := BetStatus.pending }] }

/-- The pending bet of `pendingLedger` as the settlement loop fetches it. -/
def pendingBet : Bet :=
  { id := 1, user_id := 7, game_name := "G", game_type := "soccer",
    bet_amount := 5, odds := 2, selected_team := "A",
    status := BetStatus.pending }

/-- A market row: R vs B, odds 2.0 / 3.0, no draw price. -/
def gameRB : Game :=
  { id := 1, external_id := some "odds_1", game_name := "R vs B (EFL Cup)",
    game_type := "soccer", odds := 2, start_time := none,
    team1_name := "R", team2_name := "B", team1_odds := 2, team2_odds := 3,
    draw_odds := none, has_draw := false }

/-- A market row carrying a NEGATIVE price for team1: reachable because the
feed-facing best-price scan only rejects null/zero prices and the games
table has no positivity constraint. -/
def gameNeg : Game :=
  { id := 1, external_id := some "odds_2", game_name := "N vs M (EFL Cup)",
    game_type := "soccer", odds := -2, start_time := none,
    team1_name := "N", team2_name := "M", team1_odds := -2, team2_odds := 3,
    draw_odds := none, has_draw := false }

/-- A ledger with a single account (id 1) holding 100 coins and no bets. -/
def freshLedger : Ledger :=
  { users := [{ id := 1, coins := some 100 }], bets := [] }

/-- A stored market row with external id "odds_x". -/
def gameX : Game :=
  { id := 1, external_id := some "odds_x", game_name := "X vs Y (EFL Cup)",
    game_type := "soccer", odds := 2, start_time := none,
    team1_name := "X", team2_name := "Y", team1_odds := 2, team2_odds := 3,
    draw_odds := none, has_draw := false }

/-- A feed event with no bookmaker quotes at all: it is skipped by the sync
loop and contributes nothing to `activeExternalIds`. -/
def quotelessEvent : RawEvent :=
  { id := "e1", home_team := "H", away_team := "A", commence_time := none,
    bookmakers := [] }

/-- A feed event whose only quote for the home side has price 0 (away
priced 2): both sides have a maximum quote, yet the sync loop skips it. -/
def zeroPriceEvent : RawEvent :=
  { id := "e2", home_team := "H", away_team := "A", commence_time := none,
    bookmakers :=
      [{ markets :=
          [{ key := "h2h",
             outcomes := [{ name := "H", price := 0 }, { name := "A", price := 2 }] }] }] }

/-- A ledger with one account (id 1) holding 10 coins and no bets. -/
def negLedger : Ledger :=
  { users := [{ id := 1, coins := some 10 }], bets := [] }

/-- Completed scores for `gameNeg`: N 2, M 0. -/
def scoreEventNM : ScoreEvent :=
  { id := "2", completed := true,
    scores := [{ name := "N", score := some 2 }, { name := "M", score := some 0 }] }

/-- Place 5 coins on N at the negative stored odds, then settle N as the
winner. -/
def negOps : List LedgerOp :=
  [LedgerOp.placeBet 1 1 5 "N", LedgerOp.settle scoreEventNM]

/-- Completed scores for `gameRB`: R 3, B 1 (the spec §8 sample scenario). -/
def scoreEventRB : ScoreEvent :=
  { id := "1", completed := true,
    scores := [{ name := "R", score := some 3 }, { name := "B", score := some 1 }] }

/-- Place 40 coins on R, then settle R as the winner (spec §8 scenario). -/
def rbOps : List LedgerOp :=
  [LedgerOp.placeBet 1 1 40 "R", LedgerOp.settle scoreEventRB]

/-- The pending wager of the spec §8 scenario: 40 coins on R at odds 2. -/
def betRB : Bet :=
  { id := 1, user_id := 1, game_name := "R vs B (EFL Cup)", game_type := "soccer",
    bet_amount := 40, odds := 2, selected_team := "R", status := BetStatus.pending }

/-- Ledger state right after the §8 placement: 60 coins, one pending bet. -/
def rbLedger : Ledger :=
  { users := [{ id := 1, coins := some 60 }], bets := [betRB] }

/-- A fully priced feed event (home 2, away 3 from a single bookmaker). -/
def goodRawEvent : RawEvent :=
  { id := "e3", home_team := "H", away_team := "A", commence_time := none,
    bookmakers :=
      [{ markets :=
          [{ key := "h2h",
             outcomes := [{ name := "H", price := 2 }, { name := "A", price := 3 }] }] }] }

/-- Some row of the store carries this external id. -/
def keyPresent (s : List Game) (k : String) : Prop :=
  ∃ r ∈ s, r.external_id = some k

/-- Every row of the store carrying external id `k` holds exactly the
(non-key) fields of `g`. -/
def keyAll (s : List Game) (k : String) (g : Game) : Prop :=
  ∀ r ∈ s, r.external_id = some k → r = { g with id := r.id }

/-- Every stored account balance is non-negative. -/
def nonnegBalances (st : Ledger) : Prop :=
  ∀ u ∈ st.users, 0 ≤ u.coins.getD 0

/-- The spec §8 ledger equation relative to an initial state: current
balance = initial balance − staked total + won payouts. -/
def ledgerEquation (st0 st : Ledger) : Prop :=
  ∀ uid, balanceOf st uid =
    balanceOf st0 uid - stakeSum uid st.bets + wonSum uid st.bets

/-- Structural well-formedness the ledger operations maintain: primary
keys are unique and every bet has a positive stake, non-negative odds and
an existing owner. -/
def ledgerWF (st : Ledger) : Prop :=
  (st.users.map (fun u => u.id)).Nodup ∧ (st.bets.map (fun b => b.id)).Nodup ∧
  ∀ b ∈ st.bets, 0 < b.bet_amount ∧ 0 ≤ b.odds ∧ (getUser st b.user_id).isSome = true

/-- The schema facts alone — unique bet primary keys and the bet→account
foreign relation — with no condition on the stored odds.  Enough for the
ledger equation, which holds even for wagers carrying negative odds. -/
def ledgerCore (st : Ledger) : Prop :=
  (st.bets.map (fun b => b.id)).Nodup ∧
  ∀ b ∈ st.bets, (getUser st b.user_id).isSome = true

/-- All odds columns of the market store are non-negative (what the spec's
"resolved odds must be a positive finite quantity" validation would
guarantee; the code does not enforce it — see the C7 counterexample). -/
def gamesOddsNonneg (games : List Game) : Prop :=
  ∀ g ∈ games, 0 ≤ g.team1_odds ∧ 0 ≤ g.team2_odds ∧ 0 ≤ g.draw_odds.getD 0

/-- The cumulative effect on the `bets` table of the per-bet UPDATE
statements for the fetched list `L`. -/
def applyWrites (winning : String) (L : List Bet) (bets : List Bet) : List Bet :=
  bets.map (fun r =>
    match L.find? (fun b => b.id = r.id) with
    | some b => { r with status := resolvedStatus winning b }
    | none => r)

/-- Per-row effect of one settlement pass on the `bets` table: a pending,
name-matching row is retagged won/lost, every other row is untouched. -/
def retagBet (gname w : String) (r : Bet) : Bet :=
  if r.status = BetStatus.pending ∧ r.game_name = gname then
    { r with status := resolvedStatus w r }
  else r

/-- Outcome selector: quotes named exactly `t`. -/
def isName (t : String) : String → Bool := fun n => decide (n = t)

/-- Outcome selector for the draw (case-insensitive, as in bet.js:63). -/
def isDrawName : String → Bool := fun n => decide (lowerName n = "draw")

/-- C1: the claim is violated by POST /admin/resolve-bet.  In a ledger
whose only wager is already terminal (status `won`, stake 5 at odds 2,
owner 7 holding 100 coins), re-applying single-wager resolution with
result 'won' is accepted and credits the account again: the balance moves
from 100 to 110 although the wager never was pending.  (The batch path,
POST /admin/auto-resolve, is safe: it fetches only pending wagers.) -/
theorem c1_resolve_bet_recredits_terminal :
    (∀ b ∈ wonLedger.bets, b.status ≠ BetStatus.pending) ∧
    balanceOf wonLedger 7 = 100 ∧
    resolveBet 1 "won" wonLedger =
      Except.ok { users := [{ id := 7, coins := some 110 }],
                  bets := [{ id := 1, user_id := 7, game_name := "G",
                             game_type := "soccer", bet_amount := 5, odds := 2,
                             selected_team := "A", status := BetStatus.won }] } := by
  refine ⟨by decide, by rfl, ?_⟩
  simp only [resolveBet, wonLedger, creditUser, updateUserCoins, setBetStatus]
  norm_num

/-- C2: settling a winning wager is NOT one atomic unit.  The per-bet body
of POST /admin/auto-resolve is definitionally the composition of two
separate store statements — first `UPDATE bets SET status`, then
`UPDATE users SET coins` — and in the state between them (reachable at
every `await` gap and on a crash) the wager already has status `won`
while the owner's balance is still uncredited (100, not 110). -/
theorem c2_won_settlement_not_atomic :
    applyBetResolution "A" pendingLedger pendingBet =
      creditUser 7 (5 * 2) (setBetStatus 1 BetStatus.won pendingLedger) ∧
    (∀ b ∈ (setBetStatus 1 BetStatus.won pendingLedger).bets,
      b.status = BetStatus.won) ∧
    balanceOf (setBetStatus 1 BetStatus.won pendingLedger) 7 = 100 ∧
    balanceOf (applyBetResolution "A" pendingLedger pendingBet) 7 = 110 := by
  refine ⟨by rfl, by decide, by rfl, ?_⟩
  simp only [applyBetResolution, pendingLedger, pendingBet, resolvedStatus,
    creditUser, updateUserCoins, setBetStatus, balanceOf, getUser]
  norm_num [List.find?]

/-- C4: a successful placement is NOT one atomic unit.  On a valid request
(user 1 with 100 coins, stake 40 on R at odds 2) `place` succeeds and is
definitionally the debit UPDATE followed by the bet INSERT; in the state
between the two statements the 40 coins are already gone while no wager
row exists yet.  (Every validation-failure path returns before either
statement, so the zero-mutation half of the claim does hold.) -/
theorem c4_placement_two_statements :
    place [gameRB] 1 1 40 "R" freshLedger =
      Except.ok (insertBet 1 "R vs B (EFL Cup)" "soccer" 40 2 "R"
        (debitUser 1 40 freshLedger)) ∧
    (debitUser 1 40 freshLedger).users = [{ id := 1, coins := some 60 }] ∧
    (debitUser 1 40 freshLedger).bets = [] ∧
    (insertBet 1 "R vs B (EFL Cup)" "soccer" 40 2 "R"
      (debitUser 1 40 freshLedger)).1.bets ≠ [] := by
  refine ⟨by rfl, ?_, by rfl, by decide⟩
  simp only [debitUser, updateUserCoins, freshLedger]
  norm_num

theorem find?_map_of_pred {α : Type} (l : List α) (p : α → Bool) (f : α → α)
    (h : ∀ x, p (f x) = p x) : (l.map f).find? p = (l.find? p).map f := by
  induction l with
  | nil => rfl
  | cons a t ih =>
    simp only [List.map_cons, List.find?_cons]
    rw [h a]
    cases hp : p a <;> simp [ih]

/-- C10: POST /admin/add-coins accepts any rational amount (negative and
fractional included); for an existing user it unconditionally sets the
balance to COALESCE(previous, 0) + amount with no lower-bound check, and
a negative amount can drive the stored balance negative (1 with 5 coins,
amount −10, result −5). -/
theorem c10_add_coins_unchecked (users : List User) (uid : Nat) (inc : ℚ)
    (u : User) (h0 : uid ≠ 0)
    (hf : users.find? (fun x => x.id = uid) = some u) :
    (∃ users2, addCoins uid inc users = Except.ok users2 ∧
      users2.find? (fun x => x.id = uid) =
        some { u with coins := some (u.coins.getD 0 + inc) }) ∧
    (addCoins 1 (-10) [{ id := 1, coins := some 5 }] =
        Except.ok [{ id := 1, coins := some (-5) }] ∧ (-5 : ℚ) < 0) := by
  constructor
  · have hu : u ∈ users := List.mem_of_find?_eq_some hf
    have hid : u.id = uid := by
      have := List.find?_some hf
      simpa using this
    have hall : users.all (fun x => x.id ≠ uid) = false := by
      cases hb : users.all (fun x => x.id ≠ uid) with
      | false => rfl
      | true =>
        rw [List.all_eq_true] at hb
        have := hb u hu
        simp [hid] at this
    refine ⟨users.map (fun x =>
      if x.id = uid then { x with coins := some (x.coins.getD 0 + inc) } else x),
      ?_, ?_⟩
    · simp only [addCoins, if_neg h0, hall]
      rfl
    · rw [find?_map_of_pred users _ _ (fun x => by by_cases hx : x.id = uid <;> simp [hx]),
        hf]
      simp [hid]
  · constructor
    · simp only [addCoins]
      norm_num
    · norm_num

/-- C10 witness: the theorem applied at the concrete negative-amount
instance. -/
theorem c10_witness :
    addCoins 1 (-10) [{ id := 1, coins := some 5 }] =
      Except.ok [{ id := 1, coins := some (-5) }] ∧ (-5 : ℚ) < 0 :=
  (c10_add_coins_unchecked [{ id := 1, coins := some 5 }] 1 (-10)
    { id := 1, coins := some 5 } (by decide) (by rfl)).2

/-- C7 counterexample: the claim "placement rejects every request whose
resolved odds is not a positive finite quantity" is false.  With the
stored market `gameNeg` the resolved odds for side N is −2 — not positive
— yet the placement request (stake 5, balance 100) is ACCEPTED: the code
only rejects falsy (0/null) or NaN odds. -/
theorem c7_counterexample :
    chooseOdds gameNeg "N" = some (-2) ∧ ¬ ((0 : ℚ) < -2) ∧
    isErr (placeJs [gameNeg] 1 1 (JsNum.fin 5) "N" freshLedger) = false :=
  ⟨rfl, by norm_num, rfl⟩

/-- C7 (amended): placement validation rejects, before any mutation, every
request whose stakeAmount is NaN or ≤ 0, and every request with an
infinite stakeAmount (the explicit checks pass it but the balance
comparison `coins < Infinity` always rejects it); it also rejects a
resolved odds that is absent, zero or NaN.  (Negative — and infinite —
resolved odds are NOT rejected; see the counterexample.) -/
theorem c7_validation_amended (games : List Game) (uid gameId : Nat)
    (amt : JsNum) (side : String) (st : Ledger) :
    (amt.isNaNb = true ∨ amt.leZero = true ∨ amt = JsNum.posInf →
      isErr (placeJs games uid gameId amt side st) = true) ∧
    (∀ g, games.find? (fun g2 => g2.id = gameId) = some g →
      (chooseOdds g side).getD 0 = 0 →
      isErr (placeJs games uid gameId amt side st) = true) := by
  constructor
  · intro h
    by_cases h1 : uid = 0 ∨ gameId = 0 ∨ side = "" ∨ amt.isNaNb = true ∨ amt.leZero = true
    · simp only [placeJs]
      rw [if_pos h1]
      rfl
    · have hp : amt = JsNum.posInf := by
        rcases h with h | h | h
        · exact absurd (Or.inr (Or.inr (Or.inr (Or.inl h)))) h1
        · exact absurd (Or.inr (Or.inr (Or.inr (Or.inr h)))) h1
        · exact h
      subst hp
      simp only [placeJs]
      rw [if_neg h1]
      cases hfind : games.find? (fun g2 => g2.id = gameId) with
      | none => simp only [hfind]; rfl
      | some g =>
        simp only [hfind]
        cases hco : chooseOdds g side with
        | none => simp only [hco]; rfl
        | some o =>
          simp only [hco]
          by_cases ho : o = 0
          · rw [if_pos ho]
            rfl
          · rw [if_neg ho]
            cases hgu : getUser st uid with
            | none => simp only [hgu]; rfl
            | some u =>
              simp only [hgu]
              have hlt : jsLt (JsNum.fin (u.coins.getD 0)) JsNum.posInf = true := rfl
              rw [if_pos hlt]
              rfl
  · intro g hfind hodds
    by_cases h1 : uid = 0 ∨ gameId = 0 ∨ side = "" ∨ amt.isNaNb = true ∨ amt.leZero = true
    · simp only [placeJs]
      rw [if_pos h1]
      rfl
    · simp only [placeJs]
      rw [if_neg h1]
      simp only [hfind]
      cases hco : chooseOdds g side with
      | none => simp only [hco]; rfl
      | some o =>
        simp only [hco]
        have ho : o = 0 := by
          rw [hco] at hodds
          simpa using hodds
        rw [if_pos ho]
        rfl

/-- C7 witness: the amended theorem applied at concrete rejected inputs —
a zero stake and an infinite stake, both rejected. -/
theorem c7_witness :
    isErr (placeJs [gameRB] 1 1 (JsNum.fin 0) "R" freshLedger) = true ∧
    isErr (placeJs [gameRB] 1 1 JsNum.posInf "R" freshLedger) = true :=
  ⟨(c7_validation_amended [gameRB] 1 1 (JsNum.fin 0) "R" freshLedger).1
      (Or.inr (Or.inl (by rfl))),
   (c7_validation_amended [gameRB] 1 1 JsNum.posInf "R" freshLedger).1
      (Or.inr (Or.inr rfl))⟩

/-- C3 counterexample: the claim's unconditional `balance ≥ 0` is false.
Starting from a non-negative balance (10 coins) the sequence "place 5 on N
at the stored odds −2, then settle N as winner" — both operations accepted
by the code — drives user 1's balance to −5: the placement validation does
not reject negative odds and the winning credit 5 × (−2) is negative. -/
theorem c3_counterexample :
    nonnegBalances negLedger ∧
    balanceOf (runOps [gameNeg] negLedger negOps) 1 = -5 ∧
    ¬ (0 ≤ balanceOf (runOps [gameNeg] negLedger negOps) 1) := by
  have h1 : stepOp [gameNeg] negLedger (LedgerOp.placeBet 1 1 5 "N") =
      { users := [{ id := 1, coins := some 5 }],
        bets := [{ id := 1, user_id := 1, game_name := "N vs M (EFL Cup)",
                   game_type := "soccer", bet_amount := 5, odds := -2,
                   selected_team := "N", status := BetStatus.pending }] } := by
    simp only [stepOp, place, chooseOdds, getUser, insertBet, debitUser,
      updateUserCoins, nextBetId, negLedger, gameNeg, List.find?]
    norm_num
    rfl
  have h2 : stepOp [gameNeg]
      { users := [{ id := 1, coins := some 5 }],
        bets := [{ id := 1, user_id := 1, game_name := "N vs M (EFL Cup)",
                   game_type := "soccer", bet_amount := 5, odds := -2,
                   selected_team := "N", status := BetStatus.pending }] }
      (LedgerOp.settle scoreEventNM) =
      { users := [{ id := 1, coins := some (-5) }],
        bets := [{ id := 1, user_id := 1, game_name := "N vs M (EFL Cup)",
                   game_type := "soccer", bet_amount := 5, odds := -2,
                   selected_team := "N", status := BetStatus.won }] } := by
    simp only [stepOp, resolveEvent, resolveGame, pendingBetsFor,
      applyBetResolution, setBetStatus, resolvedStatus, creditUser,
      updateUserCoins, winnerOf, gameNeg, scoreEventNM, List.find?,
      List.filter, List.foldl, List.map]
    norm_num
    simp +decide [applyBetResolution, setBetStatus, resolvedStatus, creditUser,
      updateUserCoins]
    norm_num
  have h3 : runOps [gameNeg] negLedger negOps =
      { users := [{ id := 1, coins := some (-5) }],
        bets := [{ id := 1, user_id := 1, game_name := "N vs M (EFL Cup)",
                   game_type := "soccer", bet_amount := 5, odds := -2,
                   selected_team := "N", status := BetStatus.won }] } := by
    simp only [runOps, negOps, List.foldl]
    rw [h1, h2]
  refine ⟨?_, ?_, ?_⟩
  · intro u hu
    simp only [negLedger, List.mem_singleton] at hu
    subst hu
    norm_num
  · rw [h3]
    rfl
  · rw [h3]
    norm_num [balanceOf, getUser, List.find?]

/-- C6 counterexample: a NON-empty snapshot whose only event carries no
odds (so it is skipped) deletes NOTHING — the stored market `gameX`
carries the feed's `odds_` prefix and its external id appears nowhere in
the snapshot (neither among all event ids nor among the surviving ids),
yet it survives the pass, because the prune step only runs when
`activeExternalIds` — the ids of the NON-skipped events — is non-empty. -/
theorem c6_counterexample :
    ¬ ([quotelessEvent] = ([] : List RawEvent)) ∧
    ("odds_" ++ quotelessEvent.id ≠ "odds_x") ∧
    survivorIds [quotelessEvent] = [] ∧
    gameX.external_id = some "odds_x" ∧
    oddsLike "odds_x" = true ∧
    (syncEflCupOddsToDB [quotelessEvent] [gameX]).store = [gameX] :=
  ⟨by decide, by decide, rfl, rfl, by decide, rfl⟩

/-- C8 counterexample: an event whose only home quote has price 0 HAS a
best (maximum) price for both primary sides — 0 for home, 2 for away —
so under the claim it is not "missing a best price" and should be
recorded; the code nevertheless discards it (JS falsiness of 0) and
increments the skipped counter. -/
theorem c8_counterexample :
    specBest (isName zeroPriceEvent.home_team) zeroPriceEvent = some 0 ∧
    specBest (isName zeroPriceEvent.away_team) zeroPriceEvent = some 2 ∧
    processEvent zeroPriceEvent = none ∧
    (syncEflCupOddsToDB [zeroPriceEvent] []).skippedNoOdds = 1 ∧
    (syncEflCupOddsToDB [zeroPriceEvent] []).upserted = 0 :=
  ⟨rfl, rfl, rfl, rfl, rfl⟩

theorem bets_updateUserCoins (uid : Nat) (f : ℚ → ℚ) (st : Ledger) :
    (updateUserCoins uid f st).bets = st.bets := rfl

theorem users_setBetStatus (i : Nat) (ns : BetStatus) (st : Ledger) :
    (setBetStatus i ns st).users = st.users := rfl

theorem balanceOf_setBetStatus (i : Nat) (ns : BetStatus) (st : Ledger)
    (uid : Nat) : balanceOf (setBetStatus i ns st) uid = balanceOf st uid := rfl

theorem getUser_setBetStatus (i : Nat) (ns : BetStatus) (st : Ledger)
    (uid : Nat) : getUser (setBetStatus i ns st) uid = getUser st uid := rfl

theorem getUser_updateUserCoins (uid : Nat) (f : ℚ → ℚ) (st : Ledger)
    (uid2 : Nat) :
    getUser (updateUserCoins uid f st) uid2 =
      (getUser st uid2).map (fun u =>
        if u.id = uid then { u with coins := some (f (u.coins.getD 0)) } else u) := by
  simp only [getUser, updateUserCoins]
  exact find?_map_of_pred st.users _ _ (fun u => by
    by_cases hx : u.id = uid <;> simp [hx])

theorem getUser_id {st : Ledger} {uid : Nat} {u : User}
    (h : getUser st uid = some u) : u.id = uid := by
  have := List.find?_some h
  simpa using this

theorem isSome_getUser_updateUserCoins (uid : Nat) (f : ℚ → ℚ) (st : Ledger)
    (uid2 : Nat) :
    (getUser (updateUserCoins uid f st) uid2).isSome =
      (getUser st uid2).isSome := by
  rw [getUser_updateUserCoins]
  simp

theorem balanceOf_updateUserCoins (uid : Nat) (f : ℚ → ℚ) (st : Ledger)
    (uid2 : Nat) :
    balanceOf (updateUserCoins uid f st) uid2 =
      if uid2 = uid ∧ (getUser st uid2).isSome = true then f (balanceOf st uid2)
      else balanceOf st uid2 := by
  unfold balanceOf
  rw [getUser_updateUserCoins]
  cases h : getUser st uid2 with
  | none => simp
  | some u =>
    have hid : u.id = uid2 := getUser_id h
    by_cases he : uid2 = uid
    · simp [hid, he]
    · simp [hid, he]

theorem isSome_getUser_applyBetResolution (w : String) (st : Ledger) (b : Bet)
    (uid : Nat) :
    (getUser (applyBetResolution w st b) uid).isSome =
      (getUser st uid).isSome := by
  unfold applyBetResolution
  by_cases hw : b.selected_team = w
  · rw [if_pos hw]
    unfold creditUser
    rw [isSome_getUser_updateUserCoins, getUser_setBetStatus]
  · rw [if_neg hw, getUser_setBetStatus]

theorem balance_foldl_resolution (w : String) (L : List Bet) :
    ∀ (st : Ledger) (uid : Nat),
      (∀ b ∈ L, (getUser st b.user_id).isSome = true) →
      balanceOf (L.foldl (applyBetResolution w) st) uid =
        balanceOf st uid +
          ((L.filter (fun b => b.user_id = uid ∧ b.selected_team = w)).map
            (fun b => b.bet_amount * b.odds)).sum := by
  induction L with
  | nil => intro st uid _; simp
  | cons b t ih =>
    intro st uid h
    have hb : (getUser st b.user_id).isSome = true := h b (by simp)
    have hstep : balanceOf (applyBetResolution w st b) uid =
        balanceOf st uid +
          (if b.user_id = uid ∧ b.selected_team = w then b.bet_amount * b.odds
           else 0) := by
      unfold applyBetResolution
      by_cases hw : b.selected_team = w
      · rw [if_pos hw]
        unfold creditUser
        rw [balanceOf_updateUserCoins, getUser_setBetStatus,
          balanceOf_setBetStatus]
        by_cases he : uid = b.user_id
        · subst he
          simp [hb, hw]
        · have : ¬ (b.user_id = uid ∧ b.selected_team = w) := by
            intro hc
            exact he hc.1.symm
          simp [this, fun hcc : uid = b.user_id => he hcc]
      · rw [if_neg hw, balanceOf_setBetStatus]
        simp [hw]
    simp only [List.foldl_cons]
    rw [ih _ _ (fun b2 hb2 => by
      rw [isSome_getUser_applyBetResolution]
      exact h b2 (List.mem_cons_of_mem _ hb2))]
    rw [hstep]
    by_cases hc : b.user_id = uid ∧ b.selected_team = w
    · simp only [List.filter_cons]
      simp [hc]
      ring
    · simp only [List.filter_cons]
      simp [hc]

theorem bets_applyBetResolution (w : String) (st : Ledger) (b : Bet) :
    (applyBetResolution w st b).bets =
      st.bets.map (fun r =>
        if r.id = b.id then { r with status := resolvedStatus w b } else r) := by
  unfold applyBetResolution
  by_cases hw : b.selected_team = w
  · rw [if_pos hw]
    unfold creditUser
    rw [bets_updateUserCoins]
    rfl
  · rw [if_neg hw]
    rfl

theorem bets_foldl_resolution (w : String) (L : List Bet) :
    ∀ (st : Ledger), (L.map (fun b => b.id)).Nodup →
      (L.foldl (applyBetResolution w) st).bets = applyWrites w L st.bets := by
  induction L with
  | nil =>
    intro st _
    simp [applyWrites]
  | cons b t ih =>
    intro st hnd
    have hnd' : (t.map (fun b => b.id)).Nodup := by
      simp only [List.map_cons, List.nodup_cons] at hnd
      exact hnd.2
    have hbid : b.id ∉ t.map (fun b => b.id) := by
      simp only [List.map_cons, List.nodup_cons] at hnd
      exact hnd.1
    simp only [List.foldl_cons]
    rw [ih _ hnd', bets_applyBetResolution]
    unfold applyWrites
    rw [List.map_map]
    refine congrFun (congrArg List.map (funext fun r => ?_)) st.bets
    simp only [Function.comp_apply]
    by_cases hr : r.id = b.id
    · rw [if_pos hr]
      have hft : t.find? (fun x =>
          x.id = ({ r with status := resolvedStatus w b } : Bet).id) = none := by
        rw [List.find?_eq_none]
        intro x hx
        simp only [decide_eq_true_eq]
        intro hxe
        have hxb : x.id = b.id := by
          have hxr : x.id = r.id := hxe
          exact hxr.trans hr
        exact hbid (List.mem_map.mpr ⟨x, hx, hxb⟩)
      have hdec : decide (b.id = r.id) = true := by
        simp [hr]
      simp only [List.find?_cons, hdec, hft]
    · rw [if_neg hr]
      have hdec : decide (b.id = r.id) = false := by
        simp only [decide_eq_false_iff_not]
        exact fun h => hr h.symm
      simp only [List.find?_cons, hdec]

theorem list_map_congr_mem {α β : Type} (l : List α) (f g : α → β)
    (h : ∀ a ∈ l, f a = g a) : l.map f = l.map g := by
  induction l with
  | nil => rfl
  | cons a t ih =>
    simp only [List.map_cons]
    rw [h a (by simp), ih (fun x hx => h x (by simp [hx]))]

theorem bet_id_inj {l : List Bet} (hnd : (l.map (fun b => b.id)).Nodup)
    {a c : Bet} (ha : a ∈ l) (hc : c ∈ l) (h : a.id = c.id) : a = c :=
  List.inj_on_of_nodup_map hnd ha hc h

theorem applyWrites_filter (w : String) (bets : List Bet) (p : Bet → Bool)
    (hnd : (bets.map (fun b => b.id)).Nodup) :
    applyWrites w (bets.filter p) bets =
      bets.map (fun r =>
        if p r then { r with status := resolvedStatus w r } else r) := by
  unfold applyWrites
  refine list_map_congr_mem _ _ _ (fun r hr => ?_)
  by_cases hp : p r = true
  · cases hfind : (bets.filter p).find? (fun x => x.id = r.id) with
    | none =>
      exfalso
      rw [List.find?_eq_none] at hfind
      have := hfind r (List.mem_filter.mpr ⟨hr, hp⟩)
      simp at this
    | some a =>
      have hamem : a ∈ bets.filter p := List.mem_of_find?_eq_some hfind
      have haid : a.id = r.id := by simpa using List.find?_some hfind
      have hae : a = r := bet_id_inj hnd (List.mem_filter.mp hamem).1 hr haid
      subst hae
      simp only [hfind]
      rw [if_pos hp]
  · have hfind : (bets.filter p).find? (fun x => x.id = r.id) = none := by
      rw [List.find?_eq_none]
      intro x hx
      simp only [decide_eq_true_eq]
      intro hxe
      have hxmem := List.mem_filter.mp hx
      have hxr : x = r := bet_id_inj hnd hxmem.1 hr hxe
      rw [hxr] at hxmem
      exact hp hxmem.2
    simp only [hfind]
    rw [if_neg hp]

theorem resolveGame_bets (g : Game) (s1 s2 : ℚ) (st : Ledger)
    (hnd : (st.bets.map (fun b => b.id)).Nodup) :
    (resolveGame g s1 s2 st).bets =
      st.bets.map (fun r =>
        if r.status = BetStatus.pending ∧ r.game_name = g.game_name then
          { r with status := resolvedStatus (winnerOf g s1 s2) r } else r) := by
  have hsub : ((st.bets.filter (fun b =>
      b.status = BetStatus.pending ∧ b.game_name = g.game_name)).map
        (fun b => b.id)).Nodup :=
    List.Nodup.sublist (List.Sublist.map _ (List.filter_sublist _)) hnd
  unfold resolveGame pendingBetsFor
  rw [bets_foldl_resolution _ _ _ hsub, applyWrites_filter _ _ _ hnd]
  simp only [decide_eq_true_eq]

theorem resolveGame_balance (g : Game) (s1 s2 : ℚ) (st : Ledger)
    (hex : ∀ b ∈ pendingBetsFor g.game_name st,
      (getUser st b.user_id).isSome = true) (uid : Nat) :
    balanceOf (resolveGame g s1 s2 st) uid =
      balanceOf st uid + creditSum g.game_name (winnerOf g s1 s2) uid st := by
  unfold resolveGame creditSum
  exact balance_foldl_resolution _ _ _ _ hex

/-- C5: for a completed result that resolves to a stored market with two
numeric scores, the per-event settlement of POST /admin/auto-resolve
behaves exactly as claimed: the winning label is team1's name when its
score is higher, team2's name when that one is higher, and the literal
"Draw" on equal scores; every pending wager whose stored game name equals
the market's name becomes `won` iff its selected side equals the winning
label (and `lost` otherwise), no other wager row changes, and every
account is credited exactly `stake * odds` summed over its winning wagers
of that market (all other balances unchanged).  Hypotheses: bet ids are
unique (the table's primary key) and each fetched wager's owner exists. -/
theorem c5_auto_resolve_settlement (games : List Game) (ev : ScoreEvent)
    (st : Ledger) (g : Game) (s1e s2e : ScoreEntry) (s1 s2 : ℚ)
    (hc : ev.completed = true)
    (hg : games.find? (fun x => x.external_id = some ("odds_" ++ ev.id)) = some g)
    (h1 : ev.scores.find? (fun s => s.name = g.team1_name) = some s1e)
    (h2 : ev.scores.find? (fun s => s.name = g.team2_name) = some s2e)
    (hs1 : s1e.score = some s1) (hs2 : s2e.score = some s2)
    (hnd : (st.bets.map (fun b => b.id)).Nodup)
    (hex : ∀ b ∈ pendingBetsFor g.game_name st,
      (getUser st b.user_id).isSome = true) :
    resolveEvent games ev st = resolveGame g s1 s2 st ∧
    (s2 < s1 → winnerOf g s1 s2 = g.team1_name) ∧
    (s1 < s2 → winnerOf g s1 s2 = g.team2_name) ∧
    (s1 = s2 → winnerOf g s1 s2 = "Draw") ∧
    (resolveGame g s1 s2 st).bets =
      st.bets.map (fun r =>
        if r.status = BetStatus.pending ∧ r.game_name = g.game_name then
          { r with status :=
              if r.selected_team = winnerOf g s1 s2 then BetStatus.won
              else BetStatus.lost }
        else r) ∧
    (∀ uid, balanceOf (resolveGame g s1 s2 st) uid =
      balanceOf st uid + creditSum g.game_name (winnerOf g s1 s2) uid st) := by
  refine ⟨?_, ?_, ?_, ?_, ?_, ?_⟩
  · unfold resolveEvent
    rw [hc]
    simp only [hg, h1, h2, hs1, hs2, if_neg (by simp : ¬ (true = false))]
  · intro h
    unfold winnerOf
    rw [if_pos h]
  · intro h
    unfold winnerOf
    rw [if_neg (by exact fun hlt => absurd h (not_lt_of_gt hlt)), if_pos h]
  · intro h
    unfold winnerOf
    rw [if_neg (by simp [h]), if_neg (by simp [h])]
  · have := resolveGame_bets g s1 s2 st hnd
    simpa only [resolvedStatus] using this
  · exact resolveGame_balance g s1 s2 st hex

/-- C5 witness: the theorem applied at the spec §8 sample scenario —
market R vs B at odds 2.0/3.0, user 1 holds 60 coins with a pending
40-coin wager on R, scores R 3 : B 1 — resulting balance 60 + 80 = 140. -/
theorem c5_witness :
    resolveEvent [gameRB] scoreEventRB rbLedger = resolveGame gameRB 3 1 rbLedger ∧
    winnerOf gameRB 3 1 = "R" ∧
    balanceOf (resolveGame gameRB 3 1 rbLedger) 1 = 140 := by
  have h := c5_auto_resolve_settlement [gameRB] scoreEventRB rbLedger gameRB
    { name := "R", score := some 3 } { name := "B", score := some 1 } 3 1
    (by rfl) (by rfl) (by rfl) (by rfl) (by rfl) (by rfl) (by decide)
    (fun b hb => by
      simp only [pendingBetsFor, rbLedger, betRB] at hb
      simp at hb
      rw [hb.1]
      rfl)
  refine ⟨h.1, by decide, ?_⟩
  rw [h.2.2.2.2.2 1]
  have hw : winnerOf gameRB 3 1 = "R" := by decide
  rw [hw]
  simp only [creditSum, pendingBetsFor, balanceOf, getUser, rbLedger, betRB]
  norm_num [List.find?, List.filter]

theorem list_sum_map_split {α : Type} (l : List α) (f g h : α → ℚ)
    (hfg : ∀ a ∈ l, f a = g a + h a) :
    (l.map f).sum = (l.map g).sum + (l.map h).sum := by
  induction l with
  | nil => simp
  | cons a t ih =>
    simp only [List.map_cons, List.sum_cons]
    rw [hfg a (by simp), ih (fun x hx => hfg x (by simp [hx]))]
    ring

theorem list_sum_filter_if {α : Type} (l : List α) (q : α → Bool) (m : α → ℚ) :
    ((l.filter q).map m).sum = (l.map (fun a => if q a then m a else 0)).sum := by
  induction l with
  | nil => rfl
  | cons a t ih =>
    simp only [List.filter_cons]
    cases hq : q a <;> simp [hq, ih]

theorem balanceOf_nonneg (st : Ledger) (h : nonnegBalances st) (uid : Nat) :
    0 ≤ balanceOf st uid := by
  unfold balanceOf
  cases hg : getUser st uid with
  | none => simp
  | some u => simpa using h u (List.mem_of_find?_eq_some hg)

theorem getUser_of_mem_nodup (st : Ledger)
    (h : (st.users.map (fun u => u.id)).Nodup) {u : User} (hu : u ∈ st.users) :
    getUser st u.id = some u := by
  unfold getUser
  cases hf : st.users.find? (fun x => x.id = u.id) with
  | none =>
    exfalso
    rw [List.find?_eq_none] at hf
    have := hf u hu
    simp at this
  | some a =>
    have ha : a ∈ st.users := List.mem_of_find?_eq_some hf
    have haid : a.id = u.id := by simpa using List.find?_some hf
    rw [List.inj_on_of_nodup_map h ha hu haid]

theorem users_ids_updateUserCoins (uid : Nat) (f : ℚ → ℚ) (st : Ledger) :
    (updateUserCoins uid f st).users.map (fun u => u.id) =
      st.users.map (fun u => u.id) := by
  unfold updateUserCoins
  simp only [List.map_map]
  exact list_map_congr_mem _ _ _ (fun u _ => by
    by_cases h : u.id = uid <;> simp [h])

theorem users_ids_applyBetResolution (w : String) (st : Ledger) (b : Bet) :
    (applyBetResolution w st b).users.map (fun u => u.id) =
      st.users.map (fun u => u.id) := by
  unfold applyBetResolution
  by_cases hw : b.selected_team = w
  · rw [if_pos hw]
    unfold creditUser
    rw [users_ids_updateUserCoins]
    rfl
  · rw [if_neg hw]
    rfl

theorem users_ids_foldl_resolution (w : String) (L : List Bet) :
    ∀ st : Ledger,
      ((L.foldl (applyBetResolution w) st).users.map (fun u => u.id)) =
        st.users.map (fun u => u.id) := by
  induction L with
  | nil => intro st; rfl
  | cons b t ih =>
    intro st
    simp only [List.foldl_cons]
    rw [ih, users_ids_applyBetResolution]

theorem isSome_getUser_foldl_resolution (w : String) (L : List Bet) :
    ∀ (st : Ledger) (uid : Nat),
      (getUser (L.foldl (applyBetResolution w) st) uid).isSome =
        (getUser st uid).isSome := by
  induction L with
  | nil => intro st uid; rfl
  | cons b t ih =>
    intro st uid
    simp only [List.foldl_cons]
    rw [ih, isSome_getUser_applyBetResolution]

theorem mem_pendingBetsFor {gname : String} {st : Ledger} {b : Bet}
    (h : b ∈ pendingBetsFor gname st) : b ∈ st.bets :=
  (List.mem_filter.mp h).1

theorem creditSum_nonneg (gname w : String) (uid : Nat) (st : Ledger)
    (h : ∀ b ∈ st.bets, 0 < b.bet_amount ∧ 0 ≤ b.odds) :
    0 ≤ creditSum gname w uid st := by
  unfold creditSum
  apply List.sum_nonneg
  intro x hx
  obtain ⟨b, hb, rfl⟩ := List.mem_map.mp hx
  have hbb : b ∈ st.bets := mem_pendingBetsFor (List.mem_filter.mp hb).1
  exact mul_nonneg (le_of_lt (h b hbb).1) (h b hbb).2

theorem foldl_max_init (l : List Nat) : ∀ init : Nat, init ≤ l.foldl max init := by
  induction l with
  | nil => intro init; exact le_refl _
  | cons a t ih => intro init; exact le_trans (le_max_left init a) (ih (max init a))

theorem le_foldl_max (l : List Nat) : ∀ x ∈ l, ∀ init : Nat, x ≤ l.foldl max init := by
  induction l with
  | nil => intro x hx; simp at hx
  | cons a t ih =>
    intro x hx init
    rcases List.mem_cons.mp hx with h | h
    · subst h
      exact le_trans (le_max_right init x) (foldl_max_init t _)
    · exact ih x h _

theorem nextBetId_fresh (st : Ledger) :
    nextBetId st ∉ st.bets.map (fun b => b.id) := by
  unfold nextBetId
  intro hmem
  have := le_foldl_max _ _ hmem 0
  omega

theorem retagBet_id (gname w : String) (r : Bet) :
    (retagBet gname w r).id = r.id := by
  unfold retagBet
  by_cases h : r.status = BetStatus.pending ∧ r.game_name = gname <;> simp [h]

theorem retagBet_user_id (gname w : String) (r : Bet) :
    (retagBet gname w r).user_id = r.user_id := by
  unfold retagBet
  by_cases h : r.status = BetStatus.pending ∧ r.game_name = gname <;> simp [h]

theorem retagBet_amount (gname w : String) (r : Bet) :
    (retagBet gname w r).bet_amount = r.bet_amount := by
  unfold retagBet
  by_cases h : r.status = BetStatus.pending ∧ r.game_name = gname <;> simp [h]

theorem retagBet_odds (gname w : String) (r : Bet) :
    (retagBet gname w r).odds = r.odds := by
  unfold retagBet
  by_cases h : r.status = BetStatus.pending ∧ r.game_name = gname <;> simp [h]

theorem resolveGame_bets_retag (g : Game) (s1 s2 : ℚ) (st : Ledger)
    (hnd : (st.bets.map (fun b => b.id)).Nodup) :
    (resolveGame g s1 s2 st).bets =
      st.bets.map (retagBet g.game_name (winnerOf g s1 s2)) := by
  rw [resolveGame_bets g s1 s2 st hnd]
  rfl

theorem creditSum_eq_map_sum (gname w : String) (uid : Nat) (st : Ledger) :
    creditSum gname w uid st =
      (st.bets.map (fun b =>
        if b.status = BetStatus.pending ∧ b.game_name = gname ∧
            b.user_id = uid ∧ b.selected_team = w then
          b.bet_amount * b.odds
        else 0)).sum := by
  unfold creditSum pendingBetsFor
  rw [List.filter_filter, list_sum_filter_if]
  refine congrArg List.sum (list_map_congr_mem _ _ _ (fun b _ => ?_))
  simp only [Bool.and_eq_true, decide_eq_true_eq, and_assoc]
  refine if_congr ?_ rfl rfl
  tauto

theorem wonSum_map_retag (g : Game) (w : String) (uid : Nat) (st : Ledger) :
    wonSum uid (st.bets.map (retagBet g.game_name w)) =
      wonSum uid st.bets + creditSum g.game_name w uid st := by
  unfold wonSum
  rw [List.map_map, creditSum_eq_map_sum]
  refine list_sum_map_split st.bets _ _ _ (fun b _ => ?_)
  simp only [Function.comp_apply]
  by_cases hp : b.status = BetStatus.pending ∧ b.game_name = g.game_name
  · by_cases hw : b.selected_team = w
    · by_cases hu2 : b.user_id = uid
      · simp [retagBet, resolvedStatus, hp, hw, hu2, hp.1]
      · simp [retagBet, resolvedStatus, hp, hw, hu2]
    · by_cases hu2 : b.user_id = uid
      · simp [retagBet, resolvedStatus, hp, hw, hu2, hp.1]
      · simp [retagBet, resolvedStatus, hp, hw, hu2]
  · have hnc : ¬ (b.status = BetStatus.pending ∧ b.game_name = g.game_name ∧
        b.user_id = uid ∧ b.selected_team = w) := by
      intro hx
      exact hp ⟨hx.1, hx.2.1⟩
    simp [retagBet, hp, hnc]

theorem stakeSum_map_retag (g : Game) (w : String) (uid : Nat) (st : Ledger) :
    stakeSum uid (st.bets.map (retagBet g.game_name w)) = stakeSum uid st.bets := by
  unfold stakeSum
  rw [List.map_map]
  refine congrArg List.sum (list_map_congr_mem _ _ _ (fun b _ => ?_))
  simp only [Function.comp_apply, retagBet_user_id, retagBet_amount]

theorem resolveGame_preserves (g : Game) (s1 s2 : ℚ) (st0 st : Ledger)
    (hwf : ledgerWF st) (hnn : nonnegBalances st)
    (heq : ledgerEquation st0 st) :
    ledgerWF (resolveGame g s1 s2 st) ∧
    nonnegBalances (resolveGame g s1 s2 st) ∧
    ledgerEquation st0 (resolveGame g s1 s2 st) := by
  obtain ⟨hu, hb, hprops⟩ := hwf
  have hex : ∀ b ∈ pendingBetsFor g.game_name st,
      (getUser st b.user_id).isSome = true :=
    fun b hb2 => (hprops b (mem_pendingBetsFor hb2)).2.2
  have hbets := resolveGame_bets_retag g s1 s2 st hb
  have hbal := resolveGame_balance g s1 s2 st hex
  have husers : ((resolveGame g s1 s2 st).users.map (fun u => u.id)) =
      st.users.map (fun u => u.id) := by
    unfold resolveGame
    exact users_ids_foldl_resolution _ _ _
  have hsome : ∀ uid, (getUser (resolveGame g s1 s2 st) uid).isSome =
      (getUser st uid).isSome := by
    unfold resolveGame
    exact isSome_getUser_foldl_resolution _ _ _
  have hbetsids : ((resolveGame g s1 s2 st).bets.map (fun b => b.id)) =
      st.bets.map (fun b => b.id) := by
    rw [hbets, List.map_map]
    exact list_map_congr_mem _ _ _ (fun b _ => retagBet_id _ _ _)
  refine ⟨⟨?_, ?_, ?_⟩, ?_, ?_⟩
  · rw [husers]
    exact hu
  · rw [hbetsids]
    exact hb
  · intro b' hb'
    rw [hbets] at hb'
    obtain ⟨b, hbm, rfl⟩ := List.mem_map.mp hb'
    refine ⟨?_, ?_, ?_⟩
    · rw [retagBet_amount]
      exact (hprops b hbm).1
    · rw [retagBet_odds]
      exact (hprops b hbm).2.1
    · rw [retagBet_user_id, hsome]
      exact (hprops b hbm).2.2
  · intro u' hu'
    have hnd' : ((resolveGame g s1 s2 st).users.map (fun u => u.id)).Nodup := by
      rw [husers]
      exact hu
    have hgu := getUser_of_mem_nodup (resolveGame g s1 s2 st) hnd' hu'
    have hbal' : balanceOf (resolveGame g s1 s2 st) u'.id = u'.coins.getD 0 := by
      unfold balanceOf
      rw [hgu]
      rfl
    rw [← hbal', hbal]
    exact add_nonneg (balanceOf_nonneg st hnn _)
      (creditSum_nonneg _ _ _ _ (fun b hbm =>
        ⟨(hprops b hbm).1, (hprops b hbm).2.1⟩))
  · intro uid
    rw [hbal uid, heq uid, hbets, stakeSum_map_retag, wonSum_map_retag]
    ring

theorem users_insertBet (uid : Nat) (gname gtype : String) (amt o : ℚ)
    (side : String) (st : Ledger) :
    (insertBet uid gname gtype amt o side st).1.users = st.users := rfl

theorem bets_insertBet (uid : Nat) (gname gtype : String) (amt o : ℚ)
    (side : String) (st : Ledger) :
    (insertBet uid gname gtype amt o side st).1.bets =
      st.bets ++
        [{ id := nextBetId st, user_id := uid, game_name := gname,
           game_type := gtype, bet_amount := amt, odds := o,
           selected_team := side, status := BetStatus.pending }] := rfl

theorem stakeSum_append_single (uid : Nat) (bets : List Bet) (b : Bet) :
    stakeSum uid (bets ++ [b]) =
      stakeSum uid bets + (if b.user_id = uid then b.bet_amount else 0) := by
  unfold stakeSum
  rw [List.map_append, List.sum_append]
  simp

theorem wonSum_append_single (uid : Nat) (bets : List Bet) (b : Bet) :
    wonSum uid (bets ++ [b]) =
      wonSum uid bets +
        (if b.user_id = uid ∧ b.status = BetStatus.won then
          b.bet_amount * b.odds else 0) := by
  unfold wonSum
  rw [List.map_append, List.sum_append]
  simp

theorem getUser_insertBet (uid : Nat) (gname gtype : String) (amt o : ℚ)
    (side : String) (st : Ledger) (uid2 : Nat) :
    getUser (insertBet uid gname gtype amt o side st).1 uid2 =
      getUser st uid2 := rfl

theorem balanceOf_insertBet (uid : Nat) (gname gtype : String) (amt o : ℚ)
    (side : String) (st : Ledger) (uid2 : Nat) :
    balanceOf (insertBet uid gname gtype amt o side st).1 uid2 =
      balanceOf st uid2 := rfl

theorem chooseOdds_nonneg (games : List Game) (hg : gamesOddsNonneg games)
    {g : Game} (hgm : g ∈ games) {side : String} {o : ℚ}
    (h : chooseOdds g side = some o) : 0 ≤ o := by
  obtain ⟨h1, h2, h3⟩ := hg g hgm
  unfold chooseOdds at h
  by_cases c1 : side = g.team1_name
  · rw [if_pos c1] at h
    cases h
    exact h1
  · rw [if_neg c1] at h
    by_cases c2 : side = g.team2_name
    · rw [if_pos c2] at h
      cases h
      exact h2
    · rw [if_neg c2] at h
      by_cases c3 : side = "Draw"
      · rw [if_pos c3] at h
        by_cases c4 : g.has_draw = true ∧ g.draw_odds.isSome = true
        · rw [if_pos c4] at h
          rw [h] at h3
          simpa using h3
        · rw [if_neg c4] at h
          cases h
      · rw [if_neg c3] at h
        cases h

theorem place_ok_inv (games : List Game) (uid gameId : Nat) (amt : ℚ)
    (side : String) (st : Ledger) (pr : Ledger × Bet)
    (h : place games uid gameId amt side st = Except.ok pr) :
    ∃ g u, games.find? (fun x => x.id = gameId) = some g ∧ g ∈ games ∧
      (∃ o, chooseOdds g side = some o ∧ o ≠ 0 ∧
        pr = insertBet uid g.game_name g.game_type amt o side
          (debitUser uid amt st)) ∧
      getUser st uid = some u ∧ ¬ (u.coins.getD 0 < amt) ∧ 0 < amt := by
  unfold place at h
  by_cases h1 : uid = 0 ∨ gameId = 0 ∨ side = "" ∨ amt ≤ 0
  · rw [if_pos h1] at h
    exact Except.noConfusion h
  · rw [if_neg h1] at h
    push_neg at h1
    cases hgf : games.find? (fun x => x.id = gameId) with
    | none =>
      simp only [hgf] at h
      exact Except.noConfusion h
    | some g =>
      simp only [hgf] at h
      cases ho : chooseOdds g side with
      | none =>
        simp only [ho] at h
        exact Except.noConfusion h
      | some o =>
        simp only [ho] at h
        by_cases hoz : o = 0
        · rw [if_pos hoz] at h
          exact Except.noConfusion h
        · rw [if_neg hoz] at h
          cases hu : getUser st uid with
          | none =>
            simp only [hu] at h
            exact Except.noConfusion h
          | some u =>
            simp only [hu] at h
            by_cases hbal : u.coins.getD 0 < amt
            · rw [if_pos hbal] at h
              exact Except.noConfusion h
            · rw [if_neg hbal] at h
              injection h with h2
              exact ⟨g, u, rfl, List.mem_of_find?_eq_some hgf,
                ⟨o, ho, hoz, h2.symm⟩, rfl, hbal, h1.2.2.2⟩

theorem place_preserves (games : List Game) (hg : gamesOddsNonneg games)
    (st0 st : Ledger) (uid gameId : Nat) (amt : ℚ) (side : String)
    (pr : Ledger × Bet)
    (hok : place games uid gameId amt side st = Except.ok pr)
    (hwf : ledgerWF st) (hnn : nonnegBalances st)
    (heq : ledgerEquation st0 st) :
    ledgerWF pr.1 ∧ nonnegBalances pr.1 ∧ ledgerEquation st0 pr.1 := by
  obtain ⟨g, u, hfind, hgm, ⟨o, ho, hoz, hpr⟩, hu, hbal, hpos⟩ :=
    place_ok_inv games uid gameId amt side st pr hok
  obtain ⟨hun, hbn, hprops⟩ := hwf
  subst hpr
  have husome : (getUser st uid).isSome = true := by
    rw [hu]
    rfl
  have hDusers : ((debitUser uid amt st).users.map (fun x => x.id)) =
      st.users.map (fun x => x.id) := by
    unfold debitUser
    exact users_ids_updateUserCoins _ _ _
  have hDsome : ∀ x, (getUser (debitUser uid amt st) x).isSome =
      (getUser st x).isSome := by
    intro x
    unfold debitUser
    exact isSome_getUser_updateUserCoins _ _ _ _
  have hDbal : ∀ uid2, balanceOf (debitUser uid amt st) uid2 =
      if uid2 = uid ∧ (getUser st uid2).isSome = true then
        balanceOf st uid2 - amt
      else balanceOf st uid2 := by
    intro uid2
    unfold debitUser
    exact balanceOf_updateUserCoins _ _ _ _
  have hDbets : (debitUser uid amt st).bets = st.bets := rfl
  have hfresh : nextBetId (debitUser uid amt st) ∉
      st.bets.map (fun b => b.id) := by
    have : nextBetId (debitUser uid amt st) = nextBetId st := rfl
    rw [this]
    exact nextBetId_fresh st
  refine ⟨⟨?_, ?_, ?_⟩, ?_, ?_⟩
  · rw [users_insertBet, hDusers]
    exact hun
  · rw [bets_insertBet, hDbets, List.map_append]
    simp only [List.map_cons, List.map_nil]
    rw [List.nodup_append]
    exact ⟨hbn, List.nodup_singleton _, by
      intro a ha hmem
      simp only [List.mem_singleton] at hmem
      rw [hmem] at ha
      exact hfresh ha⟩
  · intro b' hb'
    rw [bets_insertBet, hDbets] at hb'
    refine ⟨?_, ?_, ?_⟩ <;>
      rcases List.mem_append.mp hb' with hold | hnew
    · exact (hprops b' hold).1
    · simp only [List.mem_singleton] at hnew
      rw [hnew]
      exact hpos
    · exact (hprops b' hold).2.1
    · simp only [List.mem_singleton] at hnew
      rw [hnew]
      exact chooseOdds_nonneg games hg hgm ho
    · rw [getUser_insertBet, hDsome]
      exact (hprops b' hold).2.2
    · rw [getUser_insertBet, hDsome]
      simp only [List.mem_singleton] at hnew
      rw [hnew]
      exact husome
  · intro u' hu'
    rw [users_insertBet] at hu'
    unfold debitUser updateUserCoins at hu'
    simp only [List.mem_map] at hu'
    obtain ⟨u1, hu1, rfl⟩ := hu'
    by_cases he : u1.id = uid
    · have hgu1 : getUser st u1.id = some u1 := getUser_of_mem_nodup st hun hu1
      rw [he, hu] at hgu1
      have hu1u : u1 = u := by
        injection hgu1 with hx
        exact hx.symm
      rw [if_pos he]
      simp only [Option.getD_some]
      rw [hu1u]
      have : amt ≤ u.coins.getD 0 := le_of_not_lt hbal
      simp
      linarith
    · rw [if_neg he]
      exact hnn u1 hu1
  · intro uid2
    rw [balanceOf_insertBet, hDbal uid2, bets_insertBet, hDbets,
      stakeSum_append_single, wonSum_append_single]
    by_cases he : uid2 = uid
    · subst he
      rw [if_pos ⟨rfl, husome⟩, heq uid2]
      simp
      ring
    · rw [if_neg (fun hx => he hx.1), heq uid2]
      have hne : ¬ (uid = uid2) := fun hx => he hx.symm
      simp [hne]

theorem resolveEvent_preserves (games : List Game) (st0 st : Ledger)
    (ev : ScoreEvent) (hwf : ledgerWF st) (hnn : nonnegBalances st)
    (heq : ledgerEquation st0 st) :
    ledgerWF (resolveEvent games ev st) ∧
    nonnegBalances (resolveEvent games ev st) ∧
    ledgerEquation st0 (resolveEvent games ev st) := by
  unfold resolveEvent
  by_cases hc : ev.completed = false
  · rw [if_pos hc]
    exact ⟨hwf, hnn, heq⟩
  · rw [if_neg hc]
    cases hg2 : games.find? (fun g => g.external_id = some ("odds_" ++ ev.id)) with
    | none =>
      simp only [hg2]
      exact ⟨hwf, hnn, heq⟩
    | some game =>
      simp only [hg2]
      cases h1 : ev.scores.find? (fun s => s.name = game.team1_name) with
      | none =>
        cases h2 : ev.scores.find? (fun s => s.name = game.team2_name) with
        | none =>
          simp only [h1, h2]
          exact ⟨hwf, hnn, heq⟩
        | some s2e =>
          simp only [h1, h2]
          exact ⟨hwf, hnn, heq⟩
      | some s1e =>
        cases h2 : ev.scores.find? (fun s => s.name = game.team2_name) with
        | none =>
          simp only [h1, h2]
          exact ⟨hwf, hnn, heq⟩
        | some s2e =>
          simp only [h1, h2]
          cases hs1 : s1e.score with
          | none =>
            cases hs2 : s2e.score with
            | none =>
              simp only [hs1, hs2]
              exact ⟨hwf, hnn, heq⟩
            | some s2 =>
              simp only [hs1, hs2]
              exact ⟨hwf, hnn, heq⟩
          | some s1 =>
            cases hs2 : s2e.score with
            | none =>
              simp only [hs1, hs2]
              exact ⟨hwf, hnn, heq⟩
            | some s2 =>
              simp only [hs1, hs2]
              exact resolveGame_preserves game s1 s2 st0 st hwf hnn heq

theorem stepOp_preserves (games : List Game) (hg : gamesOddsNonneg games)
    (st0 st : Ledger) (op : LedgerOp) (hwf : ledgerWF st)
    (hnn : nonnegBalances st) (heq : ledgerEquation st0 st) :
    ledgerWF (stepOp games st op) ∧ nonnegBalances (stepOp games st op) ∧
    ledgerEquation st0 (stepOp games st op) := by
  cases op with
  | placeBet uid gid amt side =>
    unfold stepOp
    cases hp : place games uid gid amt side st with
    | error e =>
      simp only [hp]
      exact ⟨hwf, hnn, heq⟩
    | ok pr =>
      simp only [hp]
      exact place_preserves games hg st0 st uid gid amt side pr hp hwf hnn heq
  | settle ev =>
    exact resolveEvent_preserves games st0 st ev hwf hnn heq

theorem runOps_preserves (games : List Game) (hg : gamesOddsNonneg games)
    (st0 : Ledger) : ∀ (ops : List LedgerOp) (st : Ledger),
    ledgerWF st ∧ nonnegBalances st ∧ ledgerEquation st0 st →
    ledgerWF (runOps games st ops) ∧ nonnegBalances (runOps games st ops) ∧
    ledgerEquation st0 (runOps games st ops) := by
  intro ops
  induction ops with
  | nil => intro st h; exact h
  | cons op rest ih =>
    intro st h
    have hstep := stepOp_preserves games hg st0 st op h.1 h.2.1 h.2.2
    exact ih (stepOp games st op) hstep

theorem resolveGame_core (g : Game) (s1 s2 : ℚ) (st0 st : Ledger)
    (hc : ledgerCore st) (heq : ledgerEquation st0 st) :
    ledgerCore (resolveGame g s1 s2 st) ∧
    ledgerEquation st0 (resolveGame g s1 s2 st) := by
  obtain ⟨hb, howners⟩ := hc
  have hex : ∀ b ∈ pendingBetsFor g.game_name st,
      (getUser st b.user_id).isSome = true :=
    fun b hb2 => howners b (mem_pendingBetsFor hb2)
  have hbets := resolveGame_bets_retag g s1 s2 st hb
  have hbal := resolveGame_balance g s1 s2 st hex
  have hsome : ∀ uid, (getUser (resolveGame g s1 s2 st) uid).isSome =
      (getUser st uid).isSome := by
    unfold resolveGame
    exact isSome_getUser_foldl_resolution _ _ _
  have hbetsids : ((resolveGame g s1 s2 st).bets.map (fun b => b.id)) =
      st.bets.map (fun b => b.id) := by
    rw [hbets, List.map_map]
    exact list_map_congr_mem _ _ _ (fun b _ => retagBet_id _ _ _)
  refine ⟨⟨?_, ?_⟩, ?_⟩
  · rw [hbetsids]
    exact hb
  · intro b' hb'
    rw [hbets] at hb'
    obtain ⟨b, hbm, rfl⟩ := List.mem_map.mp hb'
    rw [retagBet_user_id, hsome]
    exact howners b hbm
  · intro uid
    rw [hbal uid, heq uid, hbets, stakeSum_map_retag, wonSum_map_retag]
    ring

theorem place_core (games : List Game) (st0 st : Ledger) (uid gameId : Nat)
    (amt : ℚ) (side : String) (pr : Ledger × Bet)
    (hok : place games uid gameId amt side st = Except.ok pr)
    (hc : ledgerCore st) (heq : ledgerEquation st0 st) :
    ledgerCore pr.1 ∧ ledgerEquation st0 pr.1 := by
  obtain ⟨g, u, hfind, hgm, ⟨o, ho, hoz, hpr⟩, hu, hbal, hpos⟩ :=
    place_ok_inv games uid gameId amt side st pr hok
  obtain ⟨hbn, howners⟩ := hc
  subst hpr
  have husome : (getUser st uid).isSome = true := by
    rw [hu]
    rfl
  have hDsome : ∀ x, (getUser (debitUser uid amt st) x).isSome =
      (getUser st x).isSome := by
    intro x
    unfold debitUser
    exact isSome_getUser_updateUserCoins _ _ _ _
  have hDbal : ∀ uid2, balanceOf (debitUser uid amt st) uid2 =
      if uid2 = uid ∧ (getUser st uid2).isSome = true then
        balanceOf st uid2 - amt
      else balanceOf st uid2 := by
    intro uid2
    unfold debitUser
    exact balanceOf_updateUserCoins _ _ _ _
  have hDbets : (debitUser uid amt st).bets = st.bets := rfl
  have hfresh : nextBetId (debitUser uid amt st) ∉
      st.bets.map (fun b => b.id) := by
    have : nextBetId (debitUser uid amt st) = nextBetId st := rfl
    rw [this]
    exact nextBetId_fresh st
  refine ⟨⟨?_, ?_⟩, ?_⟩
  · rw [bets_insertBet, hDbets, List.map_append]
    simp only [List.map_cons, List.map_nil]
    rw [List.nodup_append]
    exact ⟨hbn, List.nodup_singleton _, by
      intro a ha hmem
      simp only [List.mem_singleton] at hmem
      rw [hmem] at ha
      exact hfresh ha⟩
  · intro b' hb'
    rw [bets_insertBet, hDbets] at hb'
    rcases List.mem_append.mp hb' with hold | hnew
    · rw [getUser_insertBet, hDsome]
      exact howners b' hold
    · rw [getUser_insertBet, hDsome]
      simp only [List.mem_singleton] at hnew
      rw [hnew]
      exact husome
  · intro uid2
    rw [balanceOf_insertBet, hDbal uid2, bets_insertBet, hDbets,
      stakeSum_append_single, wonSum_append_single]
    by_cases he : uid2 = uid
    · subst he
      rw [if_pos ⟨rfl, husome⟩, heq uid2]
      simp
      ring
    · rw [if_neg (fun hx => he hx.1), heq uid2]
      have hne : ¬ (uid = uid2) := fun hx => he hx.symm
      simp [hne]

theorem resolveEvent_core (games : List Game) (st0 st : Ledger)
    (ev : ScoreEvent) (hc : ledgerCore st) (heq : ledgerEquation st0 st) :
    ledgerCore (resolveEvent games ev st) ∧
    ledgerEquation st0 (resolveEvent games ev st) := by
  unfold resolveEvent
  by_cases hcm : ev.completed = false
  · rw [if_pos hcm]
    exact ⟨hc, heq⟩
  · rw [if_neg hcm]
    cases hg2 : games.find? (fun g => g.external_id = some ("odds_" ++ ev.id)) with
    | none =>
      simp only [hg2]
      exact ⟨hc, heq⟩
    | some game =>
      simp only [hg2]
      cases h1 : ev.scores.find? (fun s => s.name = game.team1_name) with
      | none =>
        cases h2 : ev.scores.find? (fun s => s.name = game.team2_name) with
        | none =>
          simp only [h1, h2]
          exact ⟨hc, heq⟩
        | some s2e =>
          simp only [h1, h2]
          exact ⟨hc, heq⟩
      | some s1e =>
        cases h2 : ev.scores.find? (fun s => s.name = game.team2_name) with
        | none =>
          simp only [h1, h2]
          exact ⟨hc, heq⟩
        | some s2e =>
          simp only [h1, h2]
          cases hs1 : s1e.score with
          | none =>
            cases hs2 : s2e.score with
            | none =>
              simp only [hs1, hs2]
              exact ⟨hc, heq⟩
            | some s2 =>
              simp only [hs1, hs2]
              exact ⟨hc, heq⟩
          | some s1 =>
            cases hs2 : s2e.score with
            | none =>
              simp only [hs1, hs2]
              exact ⟨hc, heq⟩
            | some s2 =>
              simp only [hs1, hs2]
              exact resolveGame_core game s1 s2 st0 st hc heq

theorem stepOp_core (games : List Game) (st0 st : Ledger) (op : LedgerOp)
    (hc : ledgerCore st) (heq : ledgerEquation st0 st) :
    ledgerCore (stepOp games st op) ∧
    ledgerEquation st0 (stepOp games st op) := by
  cases op with
  | placeBet uid gid amt side =>
    unfold stepOp
    cases hp : place games uid gid amt side st with
    | error e =>
      simp only [hp]
      exact ⟨hc, heq⟩
    | ok pr =>
      simp only [hp]
      exact place_core games st0 st uid gid amt side pr hp hc heq
  | settle ev =>
    exact resolveEvent_core games st0 st ev hc heq

theorem runOps_core (games : List Game) (st0 : Ledger) :
    ∀ (ops : List LedgerOp) (st : Ledger),
    ledgerCore st ∧ ledgerEquation st0 st →
    ledgerCore (runOps games st ops) ∧
    ledgerEquation st0 (runOps games st ops) := by
  intro ops
  induction ops with
  | nil => intro st h; exact h
  | cons op rest ih =>
    intro st h
    have hstep := stepOp_core games st0 st op h.1 h.2
    exact ih (stepOp games st op) hstep

/-- C3 (amended): starting from any ledger with unique account ids, no
wagers and non-negative balances, after every prefix of any sequence of
interleaved placements and batch settlements the ledger equation holds
unconditionally — balance(A) = initial balance − Σ stakes of A's
ever-placed wagers + Σ stake·odds over A's wagers currently `won` — with
no assumption whatsoever on the signs of the stored market odds, so it
covers negative-odds markets too.  The `balance ≥ 0` half additionally
holds provided every odds column of the market store is non-negative
(which the spec's validation would enforce but the code does not); the
unconditional `balance ≥ 0` of the original claim is false, see the
counterexample with a negative-odds market. -/
theorem c3_ledger_accounting_amended (games : List Game) (st0 : Ledger)
    (ops : List LedgerOp) (h0b : st0.bets = [])
    (h0u : (st0.users.map (fun u => u.id)).Nodup) (h0n : nonnegBalances st0) :
    (∀ (n : Nat) (uid : Nat),
      balanceOf (runOps games st0 (ops.take n)) uid =
        balanceOf st0 uid -
          stakeSum uid (runOps games st0 (ops.take n)).bets +
          wonSum uid (runOps games st0 (ops.take n)).bets) ∧
    (gamesOddsNonneg games → ∀ (n : Nat) (uid : Nat),
      0 ≤ balanceOf (runOps games st0 (ops.take n)) uid) := by
  have heq0 : ledgerEquation st0 st0 := by
    intro uid
    rw [h0b]
    unfold stakeSum wonSum
    simp
  constructor
  · intro n uid
    have hc0 : ledgerCore st0 := by
      constructor
      · rw [h0b]
        exact List.nodup_nil
      · rw [h0b]
        intro b hb
        simp at hb
    exact (runOps_core games st0 (ops.take n) st0 ⟨hc0, heq0⟩).2 uid
  · intro hg n uid
    have h0 : ledgerWF st0 ∧ nonnegBalances st0 ∧ ledgerEquation st0 st0 := by
      refine ⟨⟨h0u, ?_, ?_⟩, h0n, heq0⟩
      · rw [h0b]
        exact List.nodup_nil
      · rw [h0b]
        intro b hb
        simp at hb
    exact balanceOf_nonneg _
      (runOps_preserves games hg st0 (ops.take n) st0 h0).2.1 uid

/-- C3 witness: the amended theorem applied to the spec §8 scenario (place
40 on R from 100 coins, settle R as winner) — the final balance 140 is
non-negative and satisfies 140 = 100 − 40 + 80. -/
theorem c3_witness :
    0 ≤ balanceOf (runOps [gameRB] freshLedger (rbOps.take 2)) 1 ∧
    balanceOf (runOps [gameRB] freshLedger (rbOps.take 2)) 1 =
      balanceOf freshLedger 1 -
        stakeSum 1 (runOps [gameRB] freshLedger (rbOps.take 2)).bets +
        wonSum 1 (runOps [gameRB] freshLedger (rbOps.take 2)).bets ∧
    balanceOf (runOps [gameRB] freshLedger (rbOps.take 2)) 1 = 140 := by
  have h := c3_ledger_accounting_amended [gameRB] freshLedger rbOps
    rfl (by decide)
    (by
      intro u hu
      simp only [freshLedger, List.mem_singleton] at hu
      subst hu
      norm_num)
  have hg : gamesOddsNonneg [gameRB] := by
    intro g hgm
    simp only [List.mem_singleton] at hgm
    subst hgm
    refine ⟨by norm_num [gameRB], by norm_num [gameRB], by norm_num [gameRB]⟩
  have e1 : stepOp [gameRB] freshLedger (LedgerOp.placeBet 1 1 40 "R") =
      rbLedger := by
    simp only [stepOp, place, chooseOdds, getUser, insertBet, debitUser,
      updateUserCoins, nextBetId, freshLedger, gameRB, rbLedger, betRB,
      List.find?]
    norm_num
    rfl
  have e2 : stepOp [gameRB] rbLedger (LedgerOp.settle scoreEventRB) =
      { users := [{ id := 1, coins := some 140 }],
        bets := [{ id := 1, user_id := 1, game_name := "R vs B (EFL Cup)",
                   game_type := "soccer", bet_amount := 40, odds := 2,
                   selected_team := "R", status := BetStatus.won }] } := by
    simp only [stepOp, resolveEvent, resolveGame, pendingBetsFor,
      applyBetResolution, setBetStatus, resolvedStatus, creditUser,
      updateUserCoins, winnerOf, gameRB, scoreEventRB, rbLedger, betRB,
      List.find?, List.filter, List.foldl, List.map]
    norm_num
    simp +decide [applyBetResolution, setBetStatus, resolvedStatus, creditUser,
      updateUserCoins]
    norm_num
  have e3 : runOps [gameRB] freshLedger (rbOps.take 2) =
      { users := [{ id := 1, coins := some 140 }],
        bets := [{ id := 1, user_id := 1, game_name := "R vs B (EFL Cup)",
                   game_type := "soccer", bet_amount := 40, odds := 2,
                   selected_team := "R", status := BetStatus.won }] } := by
    simp only [runOps, rbOps, List.take, List.foldl]
    rw [e1, e2]
  exact ⟨h.2 hg 2 1, h.1 2 1, by rw [e3]; rfl⟩

theorem syncStep_fold (events : List RawEvent) :
    ∀ acc : SyncAcc,
      (events.foldl syncStep acc).store =
        ((events.filterMap processEvent).map (fun kg => kg.2)).foldl
          (fun s g => upsertGame g s) acc.store ∧
      (events.foldl syncStep acc).activeIds =
        acc.activeIds ++ (events.filterMap processEvent).map (fun kg => kg.1) := by
  induction events with
  | nil => intro acc; simp
  | cons ev rest ih =>
    intro acc
    simp only [List.foldl_cons, List.filterMap_cons]
    cases hp : processEvent ev with
    | none =>
      have hstep : syncStep acc ev =
          { acc with skippedNoOdds := acc.skippedNoOdds + 1 } := by
        unfold syncStep
        rw [hp]
      rw [hstep]
      exact ih _
    | some kg =>
      have hstep : syncStep acc ev =
          { acc with
            store := upsertGame kg.2 acc.store,
            activeIds := acc.activeIds ++ [kg.1],
            upserted := acc.upserted + 1 } := by
        unfold syncStep
        rw [hp]
      rw [hstep]
      refine ⟨?_, ?_⟩
      · rw [(ih _).1]
        rfl
      · rw [(ih _).2]
        simp

theorem syncEflCupOddsToDB_store (events : List RawEvent) (store : List Game) :
    (syncEflCupOddsToDB events store).store =
      if (survivorIds events).isEmpty then
        ((survivors events).map (fun kg => kg.2)).foldl
          (fun s g => upsertGame g s) store
      else
        (((survivors events).map (fun kg => kg.2)).foldl
          (fun s g => upsertGame g s) store).filter
            (fun r => ¬ pruneCondition (survivorIds events) r) := by
  unfold syncEflCupOddsToDB
  have hb := syncStep_fold events
    { store := store, activeIds := [], upserted := 0, skippedNoOdds := 0 }
  have hids : (events.foldl syncStep
      { store := store, activeIds := [], upserted := 0,
        skippedNoOdds := 0 }).activeIds = survivorIds events := by
    rw [hb.2]
    rfl
  by_cases he : (survivorIds events).isEmpty = true
  · have hc : (events.foldl syncStep
        { store := store, activeIds := [], upserted := 0,
          skippedNoOdds := 0 }).activeIds.isEmpty = true := by
      rw [hids]
      exact he
    rw [if_pos hc, if_pos he, hb.1]
    rfl
  · have hc : ¬ ((events.foldl syncStep
        { store := store, activeIds := [], upserted := 0,
          skippedNoOdds := 0 }).activeIds.isEmpty = true) := by
      rw [hids]
      exact he
    rw [if_neg hc, if_neg he, hids, hb.1]
    rfl

theorem mem_upsertGame_of_ne {r g : Game} {s : List Game}
    (hne : r.external_id ≠ g.external_id) : r ∈ upsertGame g s ↔ r ∈ s := by
  unfold upsertGame
  by_cases ha : s.any (fun x => x.external_id = g.external_id) = true
  · rw [if_pos ha]
    constructor
    · intro hm
      obtain ⟨r0, hr0, hfr⟩ := List.mem_map.mp hm
      by_cases hk : r0.external_id = g.external_id
      · rw [if_pos hk] at hfr
        exact absurd (by rw [← hfr] : r.external_id = g.external_id) hne
      · rw [if_neg hk] at hfr
        exact hfr ▸ hr0
    · intro hm
      have hid : (if r.external_id = g.external_id then { g with id := r.id }
          else r) = r := if_neg hne
      rw [← hid]
      exact List.mem_map.mpr ⟨r, hm, rfl⟩
  · rw [if_neg ha]
    rw [List.mem_append]
    constructor
    · rintro (hm | hm)
      · exact hm
      · simp only [List.mem_singleton] at hm
        exact absurd (by rw [hm] : r.external_id = g.external_id) hne
    · exact Or.inl

theorem keyPresent_upsertGame_self {g : Game} {k : String} (s : List Game)
    (hg : g.external_id = some k) : keyPresent (upsertGame g s) k := by
  unfold upsertGame
  by_cases ha : s.any (fun x => x.external_id = g.external_id) = true
  · rw [if_pos ha]
    obtain ⟨r0, hr0, hk⟩ := List.any_eq_true.mp ha
    refine ⟨{ g with id := r0.id }, ?_, hg⟩
    exact List.mem_map.mpr ⟨r0, hr0, by rw [if_pos (of_decide_eq_true hk)]⟩
  · rw [if_neg ha]
    exact ⟨{ g with id := freshGameId s },
      List.mem_append.mpr (Or.inr (by simp)), hg⟩

theorem keyPresent_upsertGame_mono {k : String} {s : List Game} (g : Game)
    (h : keyPresent s k) : keyPresent (upsertGame g s) k := by
  obtain ⟨r, hr, hrk⟩ := h
  by_cases hk : r.external_id = g.external_id
  · rw [hk] at hrk
    exact keyPresent_upsertGame_self s hrk
  · exact ⟨r, (mem_upsertGame_of_ne hk).mpr hr, hrk⟩

theorem mem_foldl_upsert_of_ne (rows : List Game) :
    ∀ (s : List Game) (r : Game),
      (∀ g ∈ rows, r.external_id ≠ g.external_id) →
      (r ∈ rows.foldl (fun s g => upsertGame g s) s ↔ r ∈ s) := by
  induction rows with
  | nil => intro s r _; rfl
  | cons g rest ih =>
    intro s r hne
    simp only [List.foldl_cons]
    rw [ih _ _ (fun g2 hg2 => hne g2 (List.mem_cons_of_mem _ hg2))]
    exact mem_upsertGame_of_ne (hne g (by simp))

theorem keyPresent_foldl_upsert (rows : List Game) :
    ∀ (s : List Game) (k : String), keyPresent s k →
      keyPresent (rows.foldl (fun s g => upsertGame g s) s) k := by
  induction rows with
  | nil => intro s k h; exact h
  | cons g rest ih =>
    intro s k h
    simp only [List.foldl_cons]
    exact ih _ _ (keyPresent_upsertGame_mono g h)

theorem processEvent_ext {ev : RawEvent} {kg : String × Game}
    (h : processEvent ev = some kg) :
    kg.2.external_id = some kg.1 ∧ kg.1 = "odds_" ++ ev.id ∧
      kg.2.game_type = "soccer" := by
  unfold processEvent at h
  by_cases hc : priceTruthy (bestOddsOf ev).bestHome = true ∧
      priceTruthy (bestOddsOf ev).bestAway = true
  · rw [if_pos hc] at h
    injection h with h2
    rw [← h2]
    exact ⟨rfl, rfl, rfl⟩
  · rw [if_neg hc] at h
    exact Option.noConfusion h

theorem survivor_rows_keys (events : List RawEvent) :
    ∀ g2 ∈ (survivors events).map (fun kg => kg.2),
      ∃ k2, g2.external_id = some k2 ∧ k2 ∈ survivorIds events := by
  intro g2 hg2
  obtain ⟨kg, hkg, rfl⟩ := List.mem_map.mp hg2
  obtain ⟨kg2, hkg2, hre⟩ := List.mem_filterMap.mp hkg
  exact ⟨kg.1, (processEvent_ext hre).1,
    List.mem_map.mpr ⟨kg, hkg, rfl⟩⟩

/-- C6 (amended): an empty snapshot deletes nothing, and a snapshot none
of whose events survive the odds filter ALSO deletes nothing; when at
least one event survives, the deleted external ids are exactly those that
carry the feed's `odds_` namespace prefix and are absent from the
SURVIVING events' ids (rows without an external id are never touched).
The hypothesis — every prefix-carrying row is typed 'soccer' — holds for
every row the feed itself writes. -/
theorem c6_prune_amended (events : List RawEvent) (store : List Game)
    (hsoc : ∀ r ∈ store, ∀ k, r.external_id = some k → oddsLike k = true →
      r.game_type = "soccer") :
    (events = [] → (syncEflCupOddsToDB events store).store = store) ∧
    (survivors events = [] → (syncEflCupOddsToDB events store).store = store) ∧
    (survivorIds events ≠ [] →
      (∀ r ∈ store, r.external_id = none →
        r ∈ (syncEflCupOddsToDB events store).store) ∧
      (∀ r ∈ store, ∀ k, r.external_id = some k →
        (¬ keyPresent (syncEflCupOddsToDB events store).store k ↔
          oddsLike k = true ∧ k ∉ survivorIds events))) := by
  refine ⟨?_, ?_, ?_⟩
  · intro he
    subst he
    rfl
  · intro hs
    have hids : survivorIds events = [] := by
      unfold survivorIds
      rw [hs]
      rfl
    rw [syncEflCupOddsToDB_store, hids, hs]
    rfl
  · intro hne
    have hemp : (survivorIds events).isEmpty = false := by
      cases h : survivorIds events with
      | nil => exact absurd h hne
      | cons a t => rfl
    have hres : (syncEflCupOddsToDB events store).store =
        (((survivors events).map (fun kg => kg.2)).foldl
          (fun s g => upsertGame g s) store).filter
            (fun r => ¬ pruneCondition (survivorIds events) r) := by
      rw [syncEflCupOddsToDB_store, hemp]
      rfl
    constructor
    · intro r hr hrn
      have hrA : r ∈ ((survivors events).map (fun kg => kg.2)).foldl
          (fun s g => upsertGame g s) store := by
        refine (mem_foldl_upsert_of_ne _ _ _ ?_).mpr hr
        intro g2 hg2
        obtain ⟨k2, hk2, _⟩ := survivor_rows_keys events g2 hg2
        rw [hrn, hk2]
        exact fun hx => Option.noConfusion hx
      rw [hres]
      refine List.mem_filter.mpr ⟨hrA, ?_⟩
      simp [pruneCondition, hrn]
    · intro r hr k hrk
      rw [hres]
      constructor
      · intro hnp
        have hAk : keyPresent (((survivors events).map (fun kg => kg.2)).foldl
            (fun s g => upsertGame g s) store) k :=
          keyPresent_foldl_upsert _ _ _ ⟨r, hr, hrk⟩
        obtain ⟨r2, hr2, hr2k⟩ := hAk
        by_cases hol : oddsLike k = true
        · by_cases hin : k ∈ survivorIds events
          · exact absurd ⟨r2, List.mem_filter.mpr
              ⟨hr2, by simp [pruneCondition, hr2k, hin]⟩, hr2k⟩ hnp
          · exact ⟨hol, hin⟩
        · exact absurd ⟨r2, List.mem_filter.mpr
            ⟨hr2, by simp [pruneCondition, hr2k, hol]⟩, hr2k⟩ hnp
      · rintro ⟨hol, habs⟩ ⟨r2, hr2f, hr2k⟩
        have hr2A := (List.mem_filter.mp hr2f).1
        have hkeep := (List.mem_filter.mp hr2f).2
        have hr2store : r2 ∈ store := by
          refine (mem_foldl_upsert_of_ne _ _ _ ?_).mp hr2A
          intro g2 hg2
          obtain ⟨k2, hk2, hk2in⟩ := survivor_rows_keys events g2 hg2
          rw [hr2k, hk2]
          intro hx
          injection hx with hx2
          exact habs (hx2 ▸ hk2in)
        have hsoc2 := hsoc r2 hr2store k hr2k hol
        simp [pruneCondition, hr2k, hsoc2, hol, habs] at hkeep

theorem scan_fold_components (home away : String) (hha : home ≠ away)
    (hhd : lowerName home ≠ "draw") (had : lowerName away ≠ "draw")
    (outs : List Quote) :
    ∀ acc : BestOdds,
      outs.foldl (scanQuote home away) acc =
        { bestHome := ((outs.filter (fun o => isName home o.name)).map
            (fun o => o.price)).foldl updBest acc.bestHome,
          bestDraw := ((outs.filter (fun o => isDrawName o.name)).map
            (fun o => o.price)).foldl updBest acc.bestDraw,
          bestAway := ((outs.filter (fun o => isName away o.name)).map
            (fun o => o.price)).foldl updBest acc.bestAway } := by
  induction outs with
  | nil => intro acc; rfl
  | cons o rest ih =>
    intro acc
    simp only [List.foldl_cons, List.filter_cons]
    by_cases hn1 : o.name = home
    · have hn2 : ¬ (o.name = away) := by rw [hn1]; exact hha
      have hn3 : ¬ (lowerName o.name = "draw") := by rw [hn1]; exact hhd
      rw [show scanQuote home away acc o =
          { acc with bestHome := updBest acc.bestHome o.price } from by
        unfold scanQuote
        rw [if_pos hn1]]
      rw [ih]
      simp [isName, isDrawName, hn1, hn2, hn3, hha, hhd, had]
    · by_cases hn2 : o.name = away
      · have hn3 : ¬ (lowerName o.name = "draw") := by rw [hn2]; exact had
        have hab : ¬ (away = home) := fun h => hha h.symm
        rw [show scanQuote home away acc o =
            { acc with bestAway := updBest acc.bestAway o.price } from by
          unfold scanQuote
          rw [if_neg hn1, if_pos hn2]]
        rw [ih]
        simp [isName, isDrawName, hn1, hn2, hn3, hha, hhd, had, hab]
      · by_cases hn3 : lowerName o.name = "draw"
        · rw [show scanQuote home away acc o =
              { acc with bestDraw := updBest acc.bestDraw o.price } from by
            unfold scanQuote
            rw [if_neg hn1, if_neg hn2, if_pos hn3]]
          rw [ih]
          simp [isName, isDrawName, hn1, hn2, hn3, hha, hhd, had]
        · rw [show scanQuote home away acc o = acc from by
            unfold scanQuote
            rw [if_neg hn1, if_neg hn2, if_neg hn3]]
          rw [ih]
          simp [isName, isDrawName, hn1, hn2, hn3, hha, hhd, had]

theorem filter_single {α : Type} (p : α → Bool) (l : List α)
    (h : (l.filter p).length ≤ 1) :
    l.filter p = (match l.find? p with | some a => [a] | none => []) := by
  induction l with
  | nil => rfl
  | cons a t ih =>
    simp only [List.filter_cons, List.find?_cons]
    by_cases hp : p a = true
    · simp only [hp, if_true]
      have hlen : (t.filter p).length = 0 := by
        have := h
        simp only [List.filter_cons, hp, if_true, List.length_cons] at this
        omega
      rw [List.length_eq_zero] at hlen
      rw [hlen]
    · simp only [hp, if_false]
      apply ih
      have := h
      simp only [List.filter_cons, hp, if_false] at this
      exact this

theorem scanBookmaker_none (home away : String) (acc : BestOdds)
    (bm : Bookmaker)
    (hf : bm.markets.find? (fun m => m.key = "h2h") = none) :
    scanBookmaker home away acc bm = acc := by
  unfold scanBookmaker
  rw [hf]

theorem scanBookmaker_some (home away : String) (acc : BestOdds)
    (bm : Bookmaker) (m : BookmakerMarket)
    (hf : bm.markets.find? (fun m => m.key = "h2h") = some m) :
    scanBookmaker home away acc bm =
      m.outcomes.foldl (scanQuote home away) acc := by
  unfold scanBookmaker
  rw [hf]

theorem bms_fold_components (home away : String) (hha : home ≠ away)
    (hhd : lowerName home ≠ "draw") (had : lowerName away ≠ "draw") :
    ∀ (bms : List Bookmaker) (acc : BestOdds),
      (∀ bm ∈ bms, (bm.markets.filter (fun m => m.key = "h2h")).length ≤ 1) →
      bms.foldl (scanBookmaker home away) acc =
        { bestHome := ((bms.map (bmQuotes (isName home))).flatten).foldl
            updBest acc.bestHome,
          bestDraw := ((bms.map (bmQuotes isDrawName)).flatten).foldl
            updBest acc.bestDraw,
          bestAway := ((bms.map (bmQuotes (isName away))).flatten).foldl
            updBest acc.bestAway } := by
  intro bms
  induction bms with
  | nil => intro acc _; rfl
  | cons bm rest ih =>
    intro acc hlen
    simp only [List.foldl_cons, List.map_cons, List.flatten_cons]
    have hq : ∀ target : String → Bool, bmQuotes target bm =
        (match bm.markets.find? (fun m => m.key = "h2h") with
         | some m => (m.outcomes.filter (fun o => target o.name)).map
             (fun o => o.price)
         | none => []) := by
      intro target
      unfold bmQuotes
      rw [filter_single _ _ (hlen bm (by simp))]
      cases bm.markets.find? (fun m => m.key = "h2h") <;> simp
    cases hf : bm.markets.find? (fun m => m.key = "h2h") with
    | none =>
      rw [scanBookmaker_none home away acc bm hf]
      rw [ih acc (fun b hb => hlen b (List.mem_cons_of_mem _ hb))]
      simp only [hq, hf]
      rfl
    | some m =>
      rw [scanBookmaker_some home away acc bm m hf]
      rw [scan_fold_components home away hha hhd had m.outcomes acc]
      rw [ih _ (fun b hb => hlen b (List.mem_cons_of_mem _ hb))]
      simp only [hq, hf]
      simp [List.foldl_append]

theorem foldl_updBest_some (l : List ℚ) :
    ∀ b : ℚ, ∃ c, l.foldl updBest (some b) = some c := by
  induction l with
  | nil => intro b; exact ⟨b, rfl⟩
  | cons a t ih =>
    intro b
    simp only [List.foldl_cons]
    exact ih (max b a)

theorem foldl_updBest_none_iff (l : List ℚ) :
    l.foldl updBest none = none ↔ l = [] := by
  cases l with
  | nil => simp
  | cons a t =>
    simp only [List.foldl_cons]
    constructor
    · intro h
      obtain ⟨c, hc⟩ := foldl_updBest_some t a
      rw [show updBest none a = some a from rfl] at h
      rw [hc] at h
      exact Option.noConfusion h
    · intro h
      exact List.noConfusion h

theorem priceTruthy_eq_false_iff (x : Option ℚ) :
    priceTruthy x = false ↔ (x = none ∨ x = some 0) := by
  cases x with
  | none => simp [priceTruthy]
  | some q => simp [priceTruthy]

/-- C8 (amended): under the standing shape of the feed — each bookmaker
lists at most one "h2h" market, and the two team names are distinct and
not spelled "draw" — the best price the sync records per outcome equals
the maximum quoted price for that outcome across all bookmakers' h2h
markets (the fold of `max` over the spec-side quote list), and it is
absent exactly when that outcome has zero quotes; an event is discarded,
with the skipped counter incremented and no other state change, IFF the
best price of the home or away side is absent OR ZERO — JS falsiness
conflates a zero best price with a missing one, which is the single
deviation from the original claim. -/
theorem c8_best_price_amended (ev : RawEvent)
    (h1 : ∀ bm ∈ ev.bookmakers,
      (bm.markets.filter (fun m => m.key = "h2h")).length ≤ 1)
    (h2 : ev.home_team ≠ ev.away_team)
    (h3 : lowerName ev.home_team ≠ "draw")
    (h4 : lowerName ev.away_team ≠ "draw") :
    (bestOddsOf ev).bestHome = specBest (isName ev.home_team) ev ∧
    (bestOddsOf ev).bestAway = specBest (isName ev.away_team) ev ∧
    (bestOddsOf ev).bestDraw = specBest isDrawName ev ∧
    (∀ target, specBest target ev = none ↔ specQuotes target ev = []) ∧
    (processEvent ev = none ↔
      ((bestOddsOf ev).bestHome = none ∨ (bestOddsOf ev).bestHome = some 0 ∨
       (bestOddsOf ev).bestAway = none ∨ (bestOddsOf ev).bestAway = some 0)) ∧
    (∀ acc, processEvent ev = none →
      syncStep acc ev = { acc with skippedNoOdds := acc.skippedNoOdds + 1 }) := by
  have hb := bms_fold_components ev.home_team ev.away_team h2 h3 h4
    ev.bookmakers { bestHome := none, bestDraw := none, bestAway := none } h1
  have hbo : bestOddsOf ev =
      { bestHome := specBest (isName ev.home_team) ev,
        bestDraw := specBest isDrawName ev,
        bestAway := specBest (isName ev.away_team) ev } := by
    unfold bestOddsOf
    rw [hb]
    rfl
  refine ⟨by rw [hbo], by rw [hbo], by rw [hbo], ?_, ?_, ?_⟩
  · intro target
    unfold specBest
    exact foldl_updBest_none_iff _
  · unfold processEvent
    by_cases hc : priceTruthy (bestOddsOf ev).bestHome = true ∧
        priceTruthy (bestOddsOf ev).bestAway = true
    · rw [if_pos hc]
      simp only [reduceCtorEq, false_iff]
      push_neg
      refine ⟨fun hh => ?_, fun hh => ?_, fun hh => ?_, fun hh => ?_⟩
      · rw [hh] at hc
        exact absurd hc.1 (by simp [priceTruthy])
      · rw [hh] at hc
        exact absurd hc.1 (by simp [priceTruthy])
      · rw [hh] at hc
        exact absurd hc.2 (by simp [priceTruthy])
      · rw [hh] at hc
        exact absurd hc.2 (by simp [priceTruthy])
    · rw [if_neg hc]
      simp only [true_iff]
      rcases Decidable.not_and_iff_or_not.mp hc with hh | hh
      · have := priceTruthy_eq_false_iff (bestOddsOf ev).bestHome
        rcases this.mp (Bool.not_eq_true _ ▸ hh) with h5 | h5
        · exact Or.inl h5
        · exact Or.inr (Or.inl h5)
      · have := priceTruthy_eq_false_iff (bestOddsOf ev).bestAway
        rcases this.mp (Bool.not_eq_true _ ▸ hh) with h5 | h5
        · exact Or.inr (Or.inr (Or.inl h5))
        · exact Or.inr (Or.inr (Or.inr h5))
  · intro acc h
    unfold syncStep
    rw [h]

/-- C8 witness: the amended theorem applied at a fully priced event — the
recorded best prices coincide with the spec-side maxima (2 for home, 3 for
away, no draw quote) and the event is not skipped. -/
theorem c8_witness :
    (bestOddsOf goodRawEvent).bestHome =
      specBest (isName goodRawEvent.home_team) goodRawEvent ∧
    (bestOddsOf goodRawEvent).bestHome = some 2 ∧
    (bestOddsOf goodRawEvent).bestAway = some 3 ∧
    (bestOddsOf goodRawEvent).bestDraw = none ∧
    (processEvent goodRawEvent).isSome = true := by
  have h := c8_best_price_amended goodRawEvent (by decide) (by decide)
    (by decide) (by decide)
  exact ⟨h.1, by rfl, by rfl, by rfl, by rfl⟩

/-- C6 witness: the amended theorem applied at a store holding the feed
row "odds_x" and a snapshot with one surviving event "e3" — the stored
row's id is namespaced and absent from the survivors, so it is deleted. -/
theorem c6_witness :
    (¬ keyPresent (syncEflCupOddsToDB [goodRawEvent] [gameX]).store "odds_x" ↔
      oddsLike "odds_x" = true ∧ "odds_x" ∉ survivorIds [goodRawEvent]) ∧
    ¬ keyPresent (syncEflCupOddsToDB [goodRawEvent] [gameX]).store "odds_x" := by
  have hsoc : ∀ r ∈ [gameX], ∀ k, r.external_id = some k →
      oddsLike k = true → r.game_type = "soccer" := by
    intro r hr k hk hol
    simp only [List.mem_singleton] at hr
    subst hr
    rfl
  have h := (c6_prune_amended [goodRawEvent] [gameX] hsoc).2.2 (by decide)
  have h2 := h.2 gameX (by simp) "odds_x" rfl
  exact ⟨h2, h2.mpr ⟨by decide, by decide⟩⟩

theorem list_map_id_of {α : Type} (l : List α) (f : α → α)
    (h : ∀ x ∈ l, f x = x) : l.map f = l := by
  induction l with
  | nil => rfl
  | cons a t ih =>
    simp only [List.map_cons]
    rw [h a (by simp), ih (fun x hx => h x (by simp [hx]))]

theorem keyAll_upsert_self {g : Game} {k : String} {s : List Game}
    (hg : g.external_id = some k) : keyAll (upsertGame g s) k g := by
  intro r hr hrk
  unfold upsertGame at hr
  by_cases hany : s.any (fun x => x.external_id = g.external_id) = true
  · rw [if_pos hany] at hr
    obtain ⟨r0, hr0, hfr⟩ := List.mem_map.mp hr
    by_cases hk0 : r0.external_id = g.external_id
    · rw [if_pos hk0] at hfr
      rw [← hfr]
    · rw [if_neg hk0] at hfr
      exfalso
      apply hk0
      rw [hfr, hrk, hg]
  · rw [if_neg hany] at hr
    rcases List.mem_append.mp hr with hm | hm
    · exfalso
      apply hany
      exact List.any_eq_true.mpr ⟨r, hm, by simp [hrk, hg]⟩
    · simp only [List.mem_singleton] at hm
      rw [hm]

theorem keyAll_upsert_other {s : List Game} {k : String} {g : Game}
    (g2 : Game) (h : keyAll s k g) (hne : g2.external_id ≠ some k) :
    keyAll (upsertGame g2 s) k g := by
  intro r hr hrk
  have hrne : r.external_id ≠ g2.external_id := by
    rw [hrk]
    exact fun hx => hne hx.symm
  exact h r ((mem_upsertGame_of_ne hrne).mp hr) hrk

theorem keyAll_foldl_preserved (rows : List Game) :
    ∀ (s : List Game) (k : String) (g : Game), keyAll s k g →
      (∀ g2 ∈ rows, g2.external_id ≠ some k) →
      keyAll (rows.foldl (fun s g => upsertGame g s) s) k g := by
  induction rows with
  | nil => intro s k g h _; exact h
  | cons g0 rest ih =>
    intro s k g h hne
    simp only [List.foldl_cons]
    exact ih _ _ _ (keyAll_upsert_other g0 h (hne g0 (by simp)))
      (fun g2 hg2 => hne g2 (List.mem_cons_of_mem _ hg2))

theorem fold_keyAll (rows : List Game) :
    ∀ s : List Game, ((rows.map (fun g => g.external_id)).Nodup) →
      ∀ g ∈ rows, ∀ k, g.external_id = some k →
        keyAll (rows.foldl (fun s g => upsertGame g s) s) k g ∧
        keyPresent (rows.foldl (fun s g => upsertGame g s) s) k := by
  induction rows with
  | nil =>
    intro s _ g hg
    simp at hg
  | cons g0 rest ih =>
    intro s hnd g hg k hk
    have hnd' : (rest.map (fun g => g.external_id)).Nodup := by
      simp only [List.map_cons, List.nodup_cons] at hnd
      exact hnd.2
    have hg0nm : g0.external_id ∉ rest.map (fun g => g.external_id) := by
      simp only [List.map_cons, List.nodup_cons] at hnd
      exact hnd.1
    simp only [List.foldl_cons]
    rcases List.mem_cons.mp hg with he | hm
    · subst he
      constructor
      · refine keyAll_foldl_preserved rest _ _ _ (keyAll_upsert_self hk) ?_
        intro g2 hg2 hx
        apply hg0nm
        rw [hk, ← hx]
        exact List.mem_map.mpr ⟨g2, hg2, rfl⟩
      · exact keyPresent_foldl_upsert rest _ _ (keyPresent_upsertGame_self s hk)
    · exact ih _ hnd' g hm k hk

theorem upsert_identity {s : List Game} {k : String} {g : Game}
    (hall : keyAll s k g) (hpres : keyPresent s k)
    (hg : g.external_id = some k) : upsertGame g s = s := by
  unfold upsertGame
  have hany : s.any (fun x => x.external_id = g.external_id) = true := by
    obtain ⟨r, hr, hrk⟩ := hpres
    exact List.any_eq_true.mpr ⟨r, hr, by simp [hrk, hg]⟩
  rw [if_pos hany]
  apply list_map_id_of
  intro r hr
  by_cases hrk : r.external_id = g.external_id
  · rw [if_pos hrk]
    exact (hall r hr (by rw [hrk, hg])).symm
  · rw [if_neg hrk]

theorem fold_identity (rows : List Game) :
    ∀ s : List Game,
      (∀ g ∈ rows, ∃ k, g.external_id = some k ∧ keyAll s k g ∧
        keyPresent s k) →
      rows.foldl (fun s g => upsertGame g s) s = s := by
  induction rows with
  | nil => intro s _; rfl
  | cons g rest ih =>
    intro s h
    obtain ⟨k, hk, hall, hpres⟩ := h g (by simp)
    simp only [List.foldl_cons]
    rw [upsert_identity hall hpres hk]
    exact ih s (fun g2 hg2 => h g2 (List.mem_cons_of_mem _ hg2))

theorem odds_append_injective :
    Function.Injective (fun s : String => "odds_" ++ s) := by
  intro a b h
  have h2 := congrArg String.data h
  simp only [String.data_append] at h2
  apply String.ext
  exact List.append_cancel_left h2

theorem survivorIds_sublist (events : List RawEvent) :
    List.Sublist (survivorIds events)
      (events.map (fun ev => "odds_" ++ ev.id)) := by
  induction events with
  | nil => simp [survivorIds, survivors]
  | cons ev rest ih =>
    show List.Sublist ((survivors (ev :: rest)).map (fun kg => kg.1)) _
    unfold survivors
    simp only [List.filterMap_cons, List.map_cons]
    cases hp : processEvent ev with
    | none => exact List.Sublist.cons _ ih
    | some kg =>
      simp only [List.map_cons]
      rw [(processEvent_ext hp).2.1]
      exact List.Sublist.cons₂ _ ih

theorem rows_keys_nodup (events : List RawEvent)
    (h : (events.map (fun ev => ev.id)).Nodup) :
    (((survivors events).map (fun kg => kg.2)).map
      (fun g => g.external_id)).Nodup := by
  have h1 : (events.map (fun ev => "odds_" ++ ev.id)).Nodup := by
    rw [show events.map (fun ev => "odds_" ++ ev.id) =
        (events.map (fun ev => ev.id)).map (fun s => "odds_" ++ s) from by
      rw [List.map_map]
      rfl]
    exact h.map odds_append_injective
  have h2 : (survivorIds events).Nodup :=
    List.Nodup.sublist (survivorIds_sublist events) h1
  have h3 : ((survivors events).map (fun kg => kg.2)).map
      (fun g => g.external_id) = (survivorIds events).map some := by
    unfold survivorIds
    rw [List.map_map, List.map_map]
    refine list_map_congr_mem _ _ _ (fun kg hkg => ?_)
    obtain ⟨ev, hev, hre⟩ := List.mem_filterMap.mp hkg
    exact (processEvent_ext hre).1
  rw [h3]
  exact h2.map (Option.some_injective _)

/-- C9: reconciliation is idempotent — running the sync pass (best-price
upsert plus prune) twice over the same feed snapshot leaves the games
table exactly as running it once, for every snapshot whose events carry
distinct feed ids (the feed's contract) and every starting store. -/
theorem c9_sync_idempotent (events : List RawEvent) (store : List Game)
    (h : (events.map (fun ev => ev.id)).Nodup) :
    (syncEflCupOddsToDB events
      (syncEflCupOddsToDB events store).store).store =
      (syncEflCupOddsToDB events store).store := by
  have hkeys := rows_keys_nodup events h
  by_cases hemp : (survivorIds events).isEmpty = true
  · have hs : survivors events = [] := by
      have := List.isEmpty_iff.mp hemp
      unfold survivorIds at this
      exact List.map_eq_nil_iff.mp this
    have hrun : ∀ st2 : List Game,
        (syncEflCupOddsToDB events st2).store = st2 := by
      intro st2
      rw [syncEflCupOddsToDB_store, if_pos hemp, hs]
      rfl
    rw [hrun, hrun]
  · have hres : ∀ st2 : List Game, (syncEflCupOddsToDB events st2).store =
        (((survivors events).map (fun kg => kg.2)).foldl
          (fun s g => upsertGame g s) st2).filter
            (fun r => ¬ pruneCondition (survivorIds events) r) := by
      intro st2
      rw [syncEflCupOddsToDB_store, if_neg hemp]
    have hgood := fold_keyAll ((survivors events).map (fun kg => kg.2))
      store hkeys
    have hgood1 : ∀ g ∈ (survivors events).map (fun kg => kg.2),
        ∃ k, g.external_id = some k ∧
          keyAll (syncEflCupOddsToDB events store).store k g ∧
          keyPresent (syncEflCupOddsToDB events store).store k := by
      intro g hg
      obtain ⟨k, hk, hkin⟩ := survivor_rows_keys events g hg
      obtain ⟨hall, hpres⟩ := hgood g hg k hk
      refine ⟨k, hk, ?_, ?_⟩
      · intro r hr hrk
        rw [hres] at hr
        exact hall r (List.mem_filter.mp hr).1 hrk
      · obtain ⟨r, hrA, hrk⟩ := hpres
        rw [hres]
        exact ⟨r, List.mem_filter.mpr
          ⟨hrA, by simp [pruneCondition, hrk, hkin]⟩, hrk⟩
    rw [hres ((syncEflCupOddsToDB events store).store),
      fold_identity _ _ hgood1]
    apply List.filter_eq_self.mpr
    intro r hr
    rw [hres] at hr
    exact (List.mem_filter.mp hr).2

/-- C9 witness: the idempotence theorem applied at a concrete snapshot
(one fully priced event) and the empty store; the single pass really
inserts a row. -/
theorem c9_witness :
    (syncEflCupOddsToDB [goodRawEvent]
      (syncEflCupOddsToDB [goodRawEvent] []).store).store =
      (syncEflCupOddsToDB [goodRawEvent] []).store ∧
    (syncEflCupOddsToDB [goodRawEvent] []).store ≠ [] :=
  ⟨c9_sync_idempotent [goodRawEvent] [] (by decide), by decide⟩
